import Mathlib

/-
  Verification development for tools/ModelGenerator.py: a tool that turns a
  tabular data dictionary (rows describing database columns) into a DDL
  script, a D2 diagram, a flat JSON dump and a structured JSON document.
  The Python functions are shallowly embedded as executable Lean functions;
  Python strings are Lean strings, pandas NaN cells are `Option.none`,
  Python dicts (insertion-ordered) are association lists.
-/

namespace ModelGen

/-! ### List and string helpers mirroring the Python primitives used -/

/-- Python `sep.join(xs)`. -/
def sepJoin (sep : String) : List String → String
  | [] => ""
  | [x] => x
  | x :: y :: xs => x ++ sep ++ sepJoin sep (y :: xs)

/-- Concatenation of a list of strings (the sequence of `file.write` calls). -/
def sjoin : List String → String
  | [] => ""
  | x :: xs => x ++ sjoin xs

/-- Per-character expansion (used for one-character `str.replace` patterns). -/
def expandChars (f : Char → List Char) : List Char → List Char
  | [] => []
  | c :: cs => f c ++ expandChars f cs

/-- Python `str.strip()`: drop whitespace from both ends. -/
def stripChars (cs : List Char) : List Char :=
  ((cs.dropWhile Char.isWhitespace).reverse.dropWhile Char.isWhitespace).reverse

/-- Association-list lookup with the key compared by decidable equality
(Python `dict` membership / indexing). -/
def assocLookup {α β : Type} [DecidableEq α] : List (α × β) → α → Option β
  | [], _ => none
  | (k, v) :: rest, key => if key = k then some v else assocLookup rest key

theorem assocLookup_mem {α β : Type} [DecidableEq α] {l : List (α × β)} {key : α} {v : β}
    (h : assocLookup l key = some v) : (key, v) ∈ l := by
  induction l with
  | nil => simp [assocLookup] at h
  | cons p rest ih =>
    obtain ⟨k, w⟩ := p
    by_cases hk : key = k
    · subst hk
      have hv : w = v := by simpa [assocLookup] using h
      subst hv
      exact List.mem_cons_self _ _
    · simp only [assocLookup, if_neg hk] at h
      exact List.mem_cons_of_mem _ (ih h)

/-- The 26 ASCII uppercase letters with their lowercase forms. -/
def upperLowerTable : List (Char × Char) := [('A', 'a'), ('B', 'b'), ('C', 'c'), ('D', 'd'), ('E', 'e'), ('F', 'f'), ('G', 'g'), ('H', 'h'), ('I', 'i'), ('J', 'j'), ('K', 'k'), ('L', 'l'), ('M', 'm'), ('N', 'n'), ('O', 'o'), ('P', 'p'), ('Q', 'q'), ('R', 'r'), ('S', 's'), ('T', 't'), ('U', 'u'), ('V', 'v'), ('W', 'w'), ('X', 'x'), ('Y', 'y'), ('Z', 'z')]

/-- ASCII lowercasing of one character, as Python `str.lower()` acts on the
ASCII identifiers this tool manipulates. -/
def lowerChar (c : Char) : Char := (assocLookup upperLowerTable c).getD c

/-- Python `s.lower()`. -/
def pyLower (s : String) : String := String.mk (s.data.map lowerChar)

/-- Python `s.strip()`. -/
def pyStrip (s : String) : String := String.mk (stripChars s.data)

/-- Python `s.replace(' ', '_')`. -/
def spaceToUnderscore (s : String) : String :=
  String.mk (s.data.map fun c => if c = ' ' then '_' else c)

/-- Python `s.replace('"', '\\"')` from the sanitizer. -/
def escapeDoubleQuotes (s : String) : String :=
  String.mk (expandChars (fun c => if c = '"' then ['\\', '"'] else [c]) s.data)

/-- Python `s.replace("'", "''")` from the DDL comment emitter. -/
def escapeSingleQuotes (s : String) : String :=
  String.mk (expandChars (fun c => if c = '\x27' then ['\x27', '\x27'] else [c]) s.data)

/-! ### The identifier sanitizer (`sanitize_d2_identifier`, lines 21-48) -/

/-- `D2_RESERVED_KEYWORDS` from the source. -/
def D2_RESERVED_KEYWORDS : List String :=
  ["link", "label", "style", "shape", "icon", "tooltip", "width", "height",
   "class", "classes", "constraint", "source-arrowhead", "target-arrowhead",
   "direction", "grid-rows", "grid-columns", "vars", "scenarios", "steps",
   "layers", "near", "top", "left", "right", "bottom"]

/-- One character of the class `[A-Za-z0-9_]` from the regex in the source. -/
def safeChar (c : Char) : Bool :=
  (decide ('a' ≤ c) && decide (c ≤ 'z')) || (decide ('A' ≤ c) && decide (c ≤ 'Z'))
    || (decide ('0' ≤ c) && decide (c ≤ '9')) || c = '_'

/-- `sanitize_d2_identifier` from the source: return the name unchanged unless
it is empty (returned unchanged), a reserved keyword after lowering/stripping,
or contains a character outside `[A-Za-z0-9_]`; in the two latter cases wrap it
in double quotes, backslash-escaping any embedded double quote. -/
def sanitize_d2_identifier (name : String) : String :=
  if name = "" then name
  else if D2_RESERVED_KEYWORDS.contains (pyStrip (pyLower name))
      || name.data.any (fun c => !safeChar c)
  then "\"" ++ escapeDoubleQuotes name ++ "\""
  else name

/-! ### Facts about characters used by the sanitizer proofs -/

theorem safeChar_not_ws {c : Char} (h : safeChar c = true) : c.isWhitespace = false := by
  simp only [safeChar, Bool.or_eq_true, Bool.and_eq_true, decide_eq_true_eq] at h
  have h32 : c ≠ ' ' → c ≠ '\t' → c ≠ '\x0d' → c ≠ '\n' → c.isWhitespace = false := by
    intro h1 h2 h3 h4
    unfold Char.isWhitespace
    rw [decide_eq_false h1, decide_eq_false h2, decide_eq_false h4, decide_eq_false h3]
    rfl
  rcases h with ((⟨h1, -⟩ | ⟨h1, -⟩) | ⟨h1, -⟩) | h1
  · exact h32 (by rintro rfl; revert h1; decide) (by rintro rfl; revert h1; decide)
      (by rintro rfl; revert h1; decide) (by rintro rfl; revert h1; decide)
  · exact h32 (by rintro rfl; revert h1; decide) (by rintro rfl; revert h1; decide)
      (by rintro rfl; revert h1; decide) (by rintro rfl; revert h1; decide)
  · exact h32 (by rintro rfl; revert h1; decide) (by rintro rfl; revert h1; decide)
      (by rintro rfl; revert h1; decide) (by rintro rfl; revert h1; decide)
  · subst h1; decide

theorem lowerChar_safe_not_ws {c : Char} (h : safeChar c = true) :
    (lowerChar c).isWhitespace = false := by
  unfold lowerChar
  rcases hl : assocLookup upperLowerTable c with _ | v
  · simpa using safeChar_not_ws h
  · have hmem := assocLookup_mem hl
    have hall : ∀ p ∈ upperLowerTable, (p.2).isWhitespace = false := by decide
    simpa using hall _ hmem

theorem dropWhile_eq_self_of_all {p : Char → Bool} {cs : List Char}
    (h : ∀ c ∈ cs, p c = false) : cs.dropWhile p = cs := by
  cases cs with
  | nil => rfl
  | cons c cs => simp [List.dropWhile, h c (by simp)]

theorem stripChars_eq_self_of_no_ws {cs : List Char}
    (h : ∀ c ∈ cs, c.isWhitespace = false) : stripChars cs = cs := by
  unfold stripChars
  rw [dropWhile_eq_self_of_all h, dropWhile_eq_self_of_all (by intro c hc; exact h c (by simpa using hc)), List.reverse_reverse]

theorem pyStrip_pyLower_of_safe {name : String}
    (h : name.data.all safeChar = true) : pyStrip (pyLower name) = pyLower name := by
  unfold pyStrip pyLower
  congr 1
  apply stripChars_eq_self_of_no_ws
  intro c hc
  simp only [String.data] at hc
  rcases List.mem_map.mp hc with ⟨d, hd, rfl⟩
  exact lowerChar_safe_not_ws (by simpa using (List.all_eq_true.mp h) d hd)

/-! ### Claim C7: the sanitizer contract -/

/-- C7: an identifier made only of `[A-Za-z0-9_]` characters that is not
case-insensitively reserved is returned unchanged; any other identifier (and
any all-safe but reserved one) is wrapped in double quotes with embedded double
quotes backslash-escaped; the empty string is returned unchanged; and the
sanitizer is deterministic (equal outputs on equal inputs). -/
theorem C7_sanitizer_contract :
    ∀ name : String,
      (name.data.all safeChar = true →
        D2_RESERVED_KEYWORDS.contains (pyLower name) = false →
        sanitize_d2_identifier name = name)
      ∧ (name ≠ "" →
        ¬(name.data.all safeChar = true ∧
            D2_RESERVED_KEYWORDS.contains (pyLower name) = false) →
        sanitize_d2_identifier name = "\"" ++ escapeDoubleQuotes name ++ "\"")
      ∧ sanitize_d2_identifier "" = ""
      ∧ sanitize_d2_identifier name = sanitize_d2_identifier name := by
  intro name
  refine ⟨?_, ?_, rfl, rfl⟩
  · intro hsafe hres
    unfold sanitize_d2_identifier
    by_cases hemp : name = ""
    · simp [hemp]
    · rw [if_neg hemp]
      have hany : name.data.any (fun c => !safeChar c) = false := by
        rw [List.any_eq_false]
        intro c hc
        simp [List.all_eq_true.mp hsafe c hc]
      rw [pyStrip_pyLower_of_safe hsafe, hres, hany]
      rfl
  · intro hemp hcond
    unfold sanitize_d2_identifier
    rw [if_neg hemp]
    by_cases hsafe : name.data.all safeChar = true
    · have hres : D2_RESERVED_KEYWORDS.contains (pyLower name) = true := by
        rcases hh : D2_RESERVED_KEYWORDS.contains (pyLower name) with _ | _
        · exact absurd ⟨hsafe, hh⟩ hcond
        · rfl
      rw [pyStrip_pyLower_of_safe hsafe, hres]
      rfl
    · have hany : name.data.any (fun c => !safeChar c) = true := by
        rcases hh : name.data.any fun c => !safeChar c with _ | _
        · refine absurd ?_ hsafe
          rw [List.all_eq_true]
          intro c hc
          simpa using List.any_eq_false.mp hh c hc
        · rfl
      rw [hany, Bool.or_true]
      rfl

/-- C7 witness: concrete instances exercising each hypothesis of the theorem. -/
theorem C7_sanitizer_contract_witness :
    sanitize_d2_identifier "Order_Date" = "Order_Date" ∧
    sanitize_d2_identifier "Order-Date" = "\"" ++ escapeDoubleQuotes "Order-Date" ++ "\"" ∧
    sanitize_d2_identifier "Label" = "\"" ++ escapeDoubleQuotes "Label" ++ "\"" := by
  refine ⟨(C7_sanitizer_contract "Order_Date").1 (by decide) (by decide),
    (C7_sanitizer_contract "Order-Date").2.1 (by decide) ?_,
    (C7_sanitizer_contract "Label").2.1 (by decide) ?_⟩
  · intro h
    exact absurd h.1 (by decide)
  · intro h
    exact absurd h.2 (by decide)


/-! ### The Oracle to SQL-Server type map (lines 50-78) and its per-row use -/

/-- `ORACLE_TO_SQLSERVER` from the source. -/
def ORACLE_TO_SQLSERVER : List (String × String) :=
  [("NUMBER", "NUMERIC"), ("INTEGER", "INT"), ("FLOAT", "FLOAT"), ("DECIMAL", "DECIMAL"),
   ("CHAR", "CHAR"), ("NCHAR", "NCHAR"), ("VARCHAR2", "VARCHAR"), ("NVARCHAR2", "NVARCHAR"),
   ("CLOB", "VARCHAR(MAX)"), ("NCLOB", "NVARCHAR(MAX)"), ("JSON", "NVARCHAR(MAX)"),
   ("BOOLEAN", "INT"), ("DATE", "DATETIME"), ("TIMESTAMP", "DATETIME2"),
   ("BLOB", "VARBINARY(MAX)"), ("RAW", "BINARY")]

/-- Python `s.split("(", 1)`: the characters before the first open paren and
those after it, or `none` when the string has no open paren. -/
def splitAtParen : List Char → Option (List Char × List Char)
  | [] => none
  | c :: cs =>
    if c = '(' then some ([], cs)
    else (splitAtParen cs).map (fun p => (c :: p.1, p.2))

/-- base_type and params from lines 183-190: with a paren, the stripped prefix
and the parenthesised rest; without one, the whole token and empty params. -/
def sqlBaseParams (t : List Char) : List Char × List Char :=
  match splitAtParen t with
  | none => (t, [])
  | some (a, b) => (stripChars a, '(' :: b)

/-- Default-value rewrite for BOOLEAN columns (lines 194-198). -/
def boolFix (d : Option String) : Option String :=
  if d = some "FALSE" then some "0" else if d = some "TRUE" then some "1" else d

/-- Lines 179-202 (the body of the `db_type == "sqlserver"` branch): map an
Oracle SQL_DATA_TYPE token and the row DEFAULT value to SQL Server. -/
def mapCore (t : List Char) (d : Option String) : List Char × Option String :=
  match assocLookup ORACLE_TO_SQLSERVER (String.mk (sqlBaseParams t).1) with
  | some v => (v.data ++ (sqlBaseParams t).2,
      if String.mk (sqlBaseParams t).1 = "BOOLEAN" then boolFix d else d)
  | none => ((sqlBaseParams t).1 ++ (sqlBaseParams t).2, d)

/-- String-level wrapper of `mapCore`. -/
def mapSqlTypeDefault (t : String) (d : Option String) : String × Option String :=
  (String.mk (mapCore t.data d).1, (mapCore t.data d).2)

/-- The two supported dialects (validated at line 122). -/
inductive DbType
  | oracle
  | sqlserver
deriving DecidableEq

/-- Per-row type/default resolution: the mapping block is guarded by
`db_type == "sqlserver"` (line 180); emitting in oracle leaves the row as is. -/
def resolveTypeDefault (db : DbType) (t : String) (d : Option String) :
    String × Option String :=
  match db with
  | .sqlserver => mapSqlTypeDefault t d
  | .oracle => (t, d)

/-! ### Structural lemmas about splitting and stripping -/

theorem splitAtParen_not_mem {t a b : List Char}
    (h : splitAtParen t = some (a, b)) : '(' ∉ a := by
  induction t generalizing a b with
  | nil => simp [splitAtParen] at h
  | cons c cs ih =>
    by_cases hc : c = '('
    · subst hc
      have h' : some (([] : List Char), cs) = some (a, b) := by
        rw [← h]
        rfl
      obtain ⟨rfl, rfl⟩ : ([] : List Char) = a ∧ cs = b := by simpa using h'
      simp
    · have h' : (splitAtParen cs).map (fun p => (c :: p.1, p.2)) = some (a, b) := by
        rw [← h]
        show _ = (if c = '(' then some ([], cs) else (splitAtParen cs).map (fun p => (c :: p.1, p.2)))
        rw [if_neg hc]
      rcases hr : splitAtParen cs with _ | ⟨a', b'⟩
      · rw [hr] at h'
        simp at h'
      · rw [hr] at h'
        obtain ⟨rfl, rfl⟩ : c :: a' = a ∧ b' = b := by simpa using h'
        intro hmem
        rcases List.mem_cons.mp hmem with h1 | h2
        · exact hc h1.symm
        · exact ih hr h2

theorem splitAtParen_append {xs : List Char} (ys : List Char) (h : '(' ∉ xs) :
    splitAtParen (xs ++ '(' :: ys) = some (xs, ys) := by
  induction xs with
  | nil =>
    show (if ('(' : Char) = '(' then some (([] : List Char), ys) else _) = _
    rw [if_pos rfl]
  | cons x xs ih =>
    have hx : ¬(x = '(') := fun he => h (he ▸ List.mem_cons_self x xs)
    have hxs : '(' ∉ xs := fun hm => h (List.mem_cons_of_mem x hm)
    rw [List.cons_append]
    show (if x = '(' then some ([], xs ++ '(' :: ys)
        else (splitAtParen (xs ++ '(' :: ys)).map (fun p => (x :: p.1, p.2))) = _
    rw [if_neg hx, ih hxs]
    rfl

theorem splitAtParen_eq_none {t : List Char} (h : '(' ∉ t) : splitAtParen t = none := by
  induction t with
  | nil => rfl
  | cons c cs ih =>
    have hc : ¬(c = '(') := fun he => h (he ▸ List.mem_cons_self c cs)
    have hcs : '(' ∉ cs := fun hm => h (List.mem_cons_of_mem c hm)
    show (if c = '(' then some ([], cs)
        else (splitAtParen cs).map (fun p => (c :: p.1, p.2))) = none
    rw [if_neg hc, ih hcs]
    rfl

theorem mem_of_mem_dropWhile {α : Type} {p : α → Bool} {a : α} {l : List α}
    (h : a ∈ l.dropWhile p) : a ∈ l := by
  obtain ⟨t, ht⟩ := List.dropWhile_suffix (l := l) p
  rw [← ht]
  exact List.mem_append_right t h

theorem mem_of_mem_stripChars {a : Char} {cs : List Char}
    (h : a ∈ stripChars cs) : a ∈ cs := by
  unfold stripChars at h
  rw [List.mem_reverse] at h
  have h2 := mem_of_mem_dropWhile h
  rw [List.mem_reverse] at h2
  exact mem_of_mem_dropWhile h2

theorem dropWhile_eq_self_of_append {α : Type} {p : α → Bool} {u l : List α}
    (h : u.dropWhile p = u) (hp : ∃ s, u = l ++ s) : l.dropWhile p = l := by
  obtain ⟨s, rfl⟩ := hp
  cases l with
  | nil => rfl
  | cons a t =>
    rw [List.cons_append] at h
    by_cases hpa : p a = true
    · exfalso
      rw [List.dropWhile_cons_of_pos hpa] at h
      have hlen := congrArg List.length h
      have hle := ((t ++ s).dropWhile_suffix p).length_le
      simp only [List.length_cons] at hlen
      omega
    · exact List.dropWhile_cons_of_neg hpa

theorem stripChars_eq_rdrop (cs : List Char) :
    stripChars cs = List.rdropWhile Char.isWhitespace (cs.dropWhile Char.isWhitespace) := rfl

theorem stripChars_idem (cs : List Char) : stripChars (stripChars cs) = stripChars cs := by
  have hdw : (stripChars cs).dropWhile Char.isWhitespace = stripChars cs := by
    apply dropWhile_eq_self_of_append (u := cs.dropWhile Char.isWhitespace)
    · exact List.dropWhile_idempotent _ _
    · obtain ⟨t, ht⟩ := List.rdropWhile_prefix Char.isWhitespace
        (l := cs.dropWhile Char.isWhitespace)
      exact ⟨t, by rw [← ht, stripChars_eq_rdrop]⟩
  rw [stripChars_eq_rdrop (stripChars cs), hdw, stripChars_eq_rdrop cs,
    List.rdropWhile_idempotent]


/-! ### Fixed-point lemmas for the type mapper -/

theorem mapCore_noparen_none (w : List Char) (e : Option String)
    (h1 : splitAtParen w = none)
    (h2 : assocLookup ORACLE_TO_SQLSERVER (String.mk w) = none) :
    mapCore w e = (w, e) := by
  have hbp : sqlBaseParams w = (w, []) := by rw [sqlBaseParams, h1]
  simp [mapCore, hbp, h2]

theorem mapCore_noparen_self (w : List Char) (e : Option String)
    (h1 : splitAtParen w = none)
    (h2 : assocLookup ORACLE_TO_SQLSERVER (String.mk w) = some (String.mk w))
    (h3 : ¬(String.mk w = "BOOLEAN")) :
    mapCore w e = (w, e) := by
  have hbp : sqlBaseParams w = (w, []) := by rw [sqlBaseParams, h1]
  simp [mapCore, hbp, h2, h3]

theorem mapCore_paren_none (w bs : List Char) (e : Option String)
    (hw : '(' ∉ w) (hst : stripChars w = w)
    (h2 : assocLookup ORACLE_TO_SQLSERVER (String.mk w) = none) :
    mapCore (w ++ '(' :: bs) e = (w ++ '(' :: bs, e) := by
  have hbp : sqlBaseParams (w ++ '(' :: bs) = (w, '(' :: bs) := by
    rw [sqlBaseParams, splitAtParen_append bs hw]
    show (stripChars w, '(' :: bs) = (w, '(' :: bs)
    rw [hst]
  simp [mapCore, hbp, h2]

theorem mapCore_paren_self (w bs : List Char) (e : Option String)
    (hw : '(' ∉ w) (hst : stripChars w = w)
    (h2 : assocLookup ORACLE_TO_SQLSERVER (String.mk w) = some (String.mk w))
    (h3 : ¬(String.mk w = "BOOLEAN")) :
    mapCore (w ++ '(' :: bs) e = (w ++ '(' :: bs, e) := by
  have hbp : sqlBaseParams (w ++ '(' :: bs) = (w, '(' :: bs) := by
    rw [sqlBaseParams, splitAtParen_append bs hw]
    show (stripChars w, '(' :: bs) = (w, '(' :: bs)
    rw [hst]
  simp [mapCore, hbp, h2, h3]

theorem mapSql_of_mapCore {l : List Char} {e : Option String} {r : List Char × Option String}
    (h : mapCore l e = r) : mapSqlTypeDefault (String.mk l) e = (String.mk r.1, r.2) := by
  unfold mapSqlTypeDefault
  rw [show (String.mk l).data = l from rfl, h]


/-! ### Claim C6: the type mapper contract -/

/-- C6: type mapping happens only for the sqlserver target (oracle emission is
the identity on SQL_DATA_TYPE and DEFAULT); for sqlserver a BOOLEAN column
rewrites the default FALSE/TRUE to 0/1, every non-BOOLEAN row keeps its default
verbatim (as does a BOOLEAN row whose default is neither FALSE nor TRUE), and
the sqlserver mapping is idempotent, so a mapped row is never mapped again to a
different result (no double-mapping). -/
theorem C6_type_mapping :
    (∀ (t : String) (d : Option String), resolveTypeDefault .oracle t d = (t, d))
    ∧ (∀ t : String, String.mk (sqlBaseParams t.data).1 = "BOOLEAN" →
        (mapSqlTypeDefault t (some "FALSE")).2 = some "0"
        ∧ (mapSqlTypeDefault t (some "TRUE")).2 = some "1")
    ∧ (∀ (t : String) (d : Option String),
        ¬(String.mk (sqlBaseParams t.data).1 = "BOOLEAN") → (mapSqlTypeDefault t d).2 = d)
    ∧ (∀ (t : String) (d : Option String), d ≠ some "FALSE" → d ≠ some "TRUE" →
        (mapSqlTypeDefault t d).2 = d)
    ∧ (∀ (t : String) (d : Option String),
        mapSqlTypeDefault (mapSqlTypeDefault t d).1 (mapSqlTypeDefault t d).2
          = mapSqlTypeDefault t d) := by
  refine ⟨fun t d => rfl, ?_, ?_, ?_, ?_⟩
  · intro t hb
    constructor
    all_goals
      unfold mapSqlTypeDefault mapCore
      rw [hb]
      rfl
  · intro t d hb
    rcases hl : assocLookup ORACLE_TO_SQLSERVER (String.mk (sqlBaseParams t.data).1)
      with _ | v
    · simp [mapSqlTypeDefault, mapCore, hl]
    · simp [mapSqlTypeDefault, mapCore, hl, hb]
  · intro t d hF hT
    rcases hl : assocLookup ORACLE_TO_SQLSERVER (String.mk (sqlBaseParams t.data).1)
      with _ | v
    · simp [mapSqlTypeDefault, mapCore, hl]
    · by_cases hb : String.mk (sqlBaseParams t.data).1 = "BOOLEAN"
      · have hbf : boolFix d = d := by simp [boolFix, hF, hT]
        unfold mapSqlTypeDefault mapCore
        rw [hb]
        show boolFix d = d
        exact hbf
      · simp [mapSqlTypeDefault, mapCore, hl, hb]
  · intro t d
    rcases hs : splitAtParen t.data with _ | ⟨a, b⟩
    · have hbp : sqlBaseParams t.data = (t.data, []) := by rw [sqlBaseParams, hs]
      rcases hl : assocLookup ORACLE_TO_SQLSERVER (String.mk t.data) with _ | v
      · have h0 : mapCore t.data d = (t.data, d) := by
          simp [mapCore, hbp, hl]
        have h1 : mapSqlTypeDefault t d = (t, d) := by
          unfold mapSqlTypeDefault
          rw [h0]
        rw [h1]
        exact h1
      · have hmem := assocLookup_mem hl
        rw [show String.mk t.data = t from rfl] at hmem
        simp only [ORACLE_TO_SQLSERVER, List.mem_cons, Prod.mk.injEq,
          List.not_mem_nil, or_false] at hmem
        rcases hmem with ⟨hk, rfl⟩ | ⟨hk, rfl⟩ | ⟨hk, rfl⟩ | ⟨hk, rfl⟩ | ⟨hk, rfl⟩ | ⟨hk, rfl⟩ | ⟨hk, rfl⟩ | ⟨hk, rfl⟩ | ⟨hk, rfl⟩ | ⟨hk, rfl⟩ | ⟨hk, rfl⟩ | ⟨hk, rfl⟩ | ⟨hk, rfl⟩ | ⟨hk, rfl⟩ | ⟨hk, rfl⟩ | ⟨hk, rfl⟩
        all_goals subst hk
        all_goals rfl
    · have hnm := splitAtParen_not_mem hs
      have hbp : sqlBaseParams t.data = (stripChars a, '(' :: b) := by
        rw [sqlBaseParams, hs]
      have hnm2 : '(' ∉ stripChars a := fun hm => hnm (mem_of_mem_stripChars hm)
      rcases hl : assocLookup ORACLE_TO_SQLSERVER (String.mk (stripChars a)) with _ | v
      · have h0 : mapCore t.data d = (stripChars a ++ '(' :: b, d) := by
          simp [mapCore, hbp, hl]
        have h1 : mapSqlTypeDefault t d = (String.mk (stripChars a ++ '(' :: b), d) := by
          unfold mapSqlTypeDefault
          rw [h0]
        rw [h1]
        exact mapSql_of_mapCore (mapCore_paren_none _ _ _ hnm2 (stripChars_idem a) hl)
      · have hmem := assocLookup_mem hl
        simp only [ORACLE_TO_SQLSERVER, List.mem_cons, Prod.mk.injEq,
          List.not_mem_nil, or_false] at hmem
        rcases hmem with ⟨hk, rfl⟩ | ⟨hk, rfl⟩ | ⟨hk, rfl⟩ | ⟨hk, rfl⟩ | ⟨hk, rfl⟩ | ⟨hk, rfl⟩ | ⟨hk, rfl⟩ | ⟨hk, rfl⟩ | ⟨hk, rfl⟩ | ⟨hk, rfl⟩ | ⟨hk, rfl⟩ | ⟨hk, rfl⟩ | ⟨hk, rfl⟩ | ⟨hk, rfl⟩ | ⟨hk, rfl⟩ | ⟨hk, rfl⟩
        · have h0 : mapCore t.data d = ("NUMERIC".data ++ '(' :: b, d) := by
            simp [mapCore, hbp, hl, hk]
            rfl
          have h1 : mapSqlTypeDefault t d = (String.mk ("NUMERIC".data ++ '(' :: b), d) := by
            unfold mapSqlTypeDefault
            rw [h0]
          rw [h1]
          exact mapSql_of_mapCore (mapCore_paren_none "NUMERIC".data b (d) (by decide) rfl rfl)
        · have h0 : mapCore t.data d = ("INT".data ++ '(' :: b, d) := by
            simp [mapCore, hbp, hl, hk]
            rfl
          have h1 : mapSqlTypeDefault t d = (String.mk ("INT".data ++ '(' :: b), d) := by
            unfold mapSqlTypeDefault
            rw [h0]
          rw [h1]
          exact mapSql_of_mapCore (mapCore_paren_none "INT".data b (d) (by decide) rfl rfl)
        · have h0 : mapCore t.data d = ("FLOAT".data ++ '(' :: b, d) := by
            simp [mapCore, hbp, hl, hk]
            rfl
          have h1 : mapSqlTypeDefault t d = (String.mk ("FLOAT".data ++ '(' :: b), d) := by
            unfold mapSqlTypeDefault
            rw [h0]
          rw [h1]
          exact mapSql_of_mapCore (mapCore_paren_self "FLOAT".data b (d) (by decide) rfl rfl (by decide))
        · have h0 : mapCore t.data d = ("DECIMAL".data ++ '(' :: b, d) := by
            simp [mapCore, hbp, hl, hk]
            rfl
          have h1 : mapSqlTypeDefault t d = (String.mk ("DECIMAL".data ++ '(' :: b), d) := by
            unfold mapSqlTypeDefault
            rw [h0]
          rw [h1]
          exact mapSql_of_mapCore (mapCore_paren_self "DECIMAL".data b (d) (by decide) rfl rfl (by decide))
        · have h0 : mapCore t.data d = ("CHAR".data ++ '(' :: b, d) := by
            simp [mapCore, hbp, hl, hk]
            rfl
          have h1 : mapSqlTypeDefault t d = (String.mk ("CHAR".data ++ '(' :: b), d) := by
            unfold mapSqlTypeDefault
            rw [h0]
          rw [h1]
          exact mapSql_of_mapCore (mapCore_paren_self "CHAR".data b (d) (by decide) rfl rfl (by decide))
        · have h0 : mapCore t.data d = ("NCHAR".data ++ '(' :: b, d) := by
            simp [mapCore, hbp, hl, hk]
            rfl
          have h1 : mapSqlTypeDefault t d = (String.mk ("NCHAR".data ++ '(' :: b), d) := by
            unfold mapSqlTypeDefault
            rw [h0]
          rw [h1]
          exact mapSql_of_mapCore (mapCore_paren_self "NCHAR".data b (d) (by decide) rfl rfl (by decide))
        · have h0 : mapCore t.data d = ("VARCHAR".data ++ '(' :: b, d) := by
            simp [mapCore, hbp, hl, hk]
            rfl
          have h1 : mapSqlTypeDefault t d = (String.mk ("VARCHAR".data ++ '(' :: b), d) := by
            unfold mapSqlTypeDefault
            rw [h0]
          rw [h1]
          exact mapSql_of_mapCore (mapCore_paren_none "VARCHAR".data b (d) (by decide) rfl rfl)
        · have h0 : mapCore t.data d = ("NVARCHAR".data ++ '(' :: b, d) := by
            simp [mapCore, hbp, hl, hk]
            rfl
          have h1 : mapSqlTypeDefault t d = (String.mk ("NVARCHAR".data ++ '(' :: b), d) := by
            unfold mapSqlTypeDefault
            rw [h0]
          rw [h1]
          exact mapSql_of_mapCore (mapCore_paren_none "NVARCHAR".data b (d) (by decide) rfl rfl)
        · have h0 : mapCore t.data d = ("VARCHAR(MAX)".data ++ '(' :: b, d) := by
            simp [mapCore, hbp, hl, hk]
            rfl
          have h1 : mapSqlTypeDefault t d = (String.mk ("VARCHAR(MAX)".data ++ '(' :: b), d) := by
            unfold mapSqlTypeDefault
            rw [h0]
          rw [h1]
          exact mapSql_of_mapCore (mapCore_paren_none "VARCHAR".data ("MAX)".data ++ '(' :: b) (d) (by decide) rfl rfl)
        · have h0 : mapCore t.data d = ("NVARCHAR(MAX)".data ++ '(' :: b, d) := by
            simp [mapCore, hbp, hl, hk]
            rfl
          have h1 : mapSqlTypeDefault t d = (String.mk ("NVARCHAR(MAX)".data ++ '(' :: b), d) := by
            unfold mapSqlTypeDefault
            rw [h0]
          rw [h1]
          exact mapSql_of_mapCore (mapCore_paren_none "NVARCHAR".data ("MAX)".data ++ '(' :: b) (d) (by decide) rfl rfl)
        · have h0 : mapCore t.data d = ("NVARCHAR(MAX)".data ++ '(' :: b, d) := by
            simp [mapCore, hbp, hl, hk]
            rfl
          have h1 : mapSqlTypeDefault t d = (String.mk ("NVARCHAR(MAX)".data ++ '(' :: b), d) := by
            unfold mapSqlTypeDefault
            rw [h0]
          rw [h1]
          exact mapSql_of_mapCore (mapCore_paren_none "NVARCHAR".data ("MAX)".data ++ '(' :: b) (d) (by decide) rfl rfl)
        · have h0 : mapCore t.data d = ("INT".data ++ '(' :: b, boolFix d) := by
            simp [mapCore, hbp, hl, hk]
            rfl
          have h1 : mapSqlTypeDefault t d = (String.mk ("INT".data ++ '(' :: b), boolFix d) := by
            unfold mapSqlTypeDefault
            rw [h0]
          rw [h1]
          exact mapSql_of_mapCore (mapCore_paren_none "INT".data b (boolFix d) (by decide) rfl rfl)
        · have h0 : mapCore t.data d = ("DATETIME".data ++ '(' :: b, d) := by
            simp [mapCore, hbp, hl, hk]
            rfl
          have h1 : mapSqlTypeDefault t d = (String.mk ("DATETIME".data ++ '(' :: b), d) := by
            unfold mapSqlTypeDefault
            rw [h0]
          rw [h1]
          exact mapSql_of_mapCore (mapCore_paren_none "DATETIME".data b (d) (by decide) rfl rfl)
        · have h0 : mapCore t.data d = ("DATETIME2".data ++ '(' :: b, d) := by
            simp [mapCore, hbp, hl, hk]
            rfl
          have h1 : mapSqlTypeDefault t d = (String.mk ("DATETIME2".data ++ '(' :: b), d) := by
            unfold mapSqlTypeDefault
            rw [h0]
          rw [h1]
          exact mapSql_of_mapCore (mapCore_paren_none "DATETIME2".data b (d) (by decide) rfl rfl)
        · have h0 : mapCore t.data d = ("VARBINARY(MAX)".data ++ '(' :: b, d) := by
            simp [mapCore, hbp, hl, hk]
            rfl
          have h1 : mapSqlTypeDefault t d = (String.mk ("VARBINARY(MAX)".data ++ '(' :: b), d) := by
            unfold mapSqlTypeDefault
            rw [h0]
          rw [h1]
          exact mapSql_of_mapCore (mapCore_paren_none "VARBINARY".data ("MAX)".data ++ '(' :: b) (d) (by decide) rfl rfl)
        · have h0 : mapCore t.data d = ("BINARY".data ++ '(' :: b, d) := by
            simp [mapCore, hbp, hl, hk]
            rfl
          have h1 : mapSqlTypeDefault t d = (String.mk ("BINARY".data ++ '(' :: b), d) := by
            unfold mapSqlTypeDefault
            rw [h0]
          rw [h1]
          exact mapSql_of_mapCore (mapCore_paren_none "BINARY".data b (d) (by decide) rfl rfl)

/-- C6 witness: the hypotheses of the theorem discharged on concrete rows. -/
theorem C6_type_mapping_witness :
    (mapSqlTypeDefault "BOOLEAN" (some "FALSE")).2 = some "0"
    ∧ (mapSqlTypeDefault "NUMBER(10,2)" (some "FALSE")).2 = some "FALSE"
    ∧ (mapSqlTypeDefault "BOOLEAN" (some "SYSDATE")).2 = some "SYSDATE" := by
  refine ⟨(C6_type_mapping.2.1 "BOOLEAN" (by decide)).1,
    C6_type_mapping.2.2.1 "NUMBER(10,2)" (some "FALSE") (by decide),
    C6_type_mapping.2.2.2.1 "BOOLEAN" (some "SYSDATE") (by decide) (by decide)⟩


/-! ### Rows of the data dictionary

One row of the Excel sheet, post whitespace-stripping (line 156). A blank
cell (pandas NaN under `dtype=str`) is `none`. -/

structure Row where
  DOMAIN : Option String
  TABLE_NAME : Option String
  COLUMN_NAME : Option String
  DATA_TYPE : Option String
  SQL_DATA_TYPE : Option String
  DATA_LENGTH : Option String
  SCALE : Option String
  NOT_NULL : Option String
  DEFAULT : Option String
  PRIMARY_KEY : Option String
  FKEY_TABLE : Option String
  FKEY_COLUMN : Option String
  DESCRIPTION : Option String
  NATURAL_KEY : Option String
  TABLE_FLAGS : Option String
  TABLE_DESCRIPTION : Option String
  COMMENTS : Option String
deriving DecidableEq

/-- A row with every cell blank. -/
def blankRow : Row :=
  ⟨none, none, none, none, none, none, none, none, none, none, none, none, none,
    none, none, none, none⟩

/-- The value of a cell after `fillna('')` (lines 376, 644). -/
def Row.domainS (r : Row) : String := r.DOMAIN.getD ""

def Row.tableS (r : Row) : String := r.TABLE_NAME.getD ""

def Row.columnS (r : Row) : String := r.COLUMN_NAME.getD ""

def Row.sqlTypeS (r : Row) : String := r.SQL_DATA_TYPE.getD ""

def Row.fkTableS (r : Row) : String := r.FKEY_TABLE.getD ""

def Row.fkColumnS (r : Row) : String := r.FKEY_COLUMN.getD ""

/-! ### The DDL model builder (generate_ddl, lines 145-251) -/

/-- The five per-table accumulators of generate_ddl (lines 145-149, keyed by
table name; one record here bundles the five dict entries of one table). -/
structure TableAcc where
  cols : List String
  pks : List String
  fks : List (String × String × String)
  cmts : List (String × String)
  uks : List String
deriving DecidableEq

def emptyAcc : TableAcc := ⟨[], [], [], [], []⟩

/-- One column definition (lines 212-235): `name type[(length[,scale])]
[ DEFAULT (value)][ NOT NULL]`, with the type/default resolved per dialect. -/
def columnDef (db : DbType) (r : Row) : String :=
  let td := resolveTypeDefault db r.sqlTypeS r.DEFAULT
  let s0 := r.columnS ++ " " ++ td.1
  let s1 := if r.DATA_LENGTH.getD "" ≠ "" then
      s0 ++ "(" ++ r.DATA_LENGTH.getD "" ++
        (if r.SCALE.getD "" ≠ "" then "," ++ r.SCALE.getD "" else "") ++ ")"
    else s0
  let s2 := if td.2.getD "" ≠ "" then s1 ++ " DEFAULT (" ++ td.2.getD "" ++ ")" else s1
  if r.NOT_NULL = some "Y" then s2 ++ " NOT NULL" else s2

/-- Lines 237-249: append one processed row to a table accumulator. -/
def ddlAppendRow (db : DbType) (acc : TableAcc) (r : Row) : TableAcc :=
  { cols := acc.cols ++ [columnDef db r]
    pks := if r.PRIMARY_KEY = some "Y" then acc.pks ++ [r.columnS] else acc.pks
    fks := if r.fkTableS ≠ "" ∧ r.fkColumnS ≠ "" then
        acc.fks ++ [(r.columnS, r.fkTableS, r.fkColumnS)]
      else acc.fks
    cmts := if r.DESCRIPTION.getD "" ≠ "" then
        acc.cmts ++ [(r.columnS, r.DESCRIPTION.getD "")]
      else acc.cmts
    uks := if r.NATURAL_KEY = some "Y" then acc.uks ++ [r.columnS] else acc.uks }

def hasKey {β : Type} (l : List (String × β)) (k : String) : Bool :=
  (assocLookup l k).isSome

/-- In-place update of a Python dict entry (insertion order preserved). -/
def updateAssoc {β : Type} : List (String × β) → String → (β → β) → List (String × β)
  | [], _, _ => []
  | (k, v) :: rest, key, f =>
    if key = k then (k, f v) :: rest else (k, v) :: updateAssoc rest key f

/-- One iteration of the row loop (lines 160-249): skip NaN domains, create
the table entry on first sight, then append the row to it. -/
def ddlStep (db : DbType) (st : List (String × TableAcc)) (r : Row) :
    List (String × TableAcc) :=
  if r.DOMAIN.isNone then st
  else
    updateAssoc (if hasKey st r.tableS then st else st ++ [(r.tableS, emptyAcc)])
      r.tableS (fun a => ddlAppendRow db a r)

/-- The populated DDL model: tables in first-seen order with their columns,
keys, foreign keys and comments. -/
def buildDDLModel (db : DbType) (rows : List Row) : List (String × TableAcc) :=
  rows.foldl (ddlStep db) []

/-! ### The DDL emitter (lines 255-339) -/

def dropCall : DbType → String → String
  | .sqlserver, t => "EXEC #DROP_TABLE \x27" ++ t ++ "\x27\nGO\n"
  | .oracle, t => "DROP_TABLE(\x27" ++ t ++ "\x27);\n"

def createCall : DbType → String → String → String
  | .sqlserver, t, cols => "-- Create table " ++ t ++ "\nEXEC #CREATE_TABLE\n    @tableName = \x27"
      ++ t ++ "\x27,\n    @query = \x27CREATE TABLE " ++ t ++ " (\n    " ++ cols
      ++ "\n)\x27\nGO\n\n"
  | .oracle, t, cols => "-- Create table " ++ t ++ "\nCREATE_TABLE(\n \x27" ++ t
      ++ "\x27,\n \x27CREATE TABLE " ++ t ++ " (\n    " ++ cols
      ++ "\n)\n %TABLETABLESPACE%\x27\n);\n\n"

def pkCall : DbType → String → String → String
  | .sqlserver, t, cl => "EXEC #CREATE_PRIMARY_KEY @tableName = \x27" ++ t
      ++ "\x27, @columnList = \x27" ++ cl ++ "\x27\nGO\n"
  | .oracle, t, cl => "CREATE_PRIMARY_KEY(\x27" ++ t ++ "\x27, \x27" ++ cl ++ "\x27);\n"

def nkCall : DbType → String → String → String
  | .sqlserver, t, cl => "EXEC #CREATE_NATURAL_KEY @tableName = \x27" ++ t
      ++ "\x27, @columnList = \x27" ++ cl ++ "\x27\nGO\n"
  | .oracle, t, cl => "CREATE_NATURAL_KEY(\x27" ++ t ++ "\x27, \x27" ++ cl ++ "\x27);\n"

def commentCall : DbType → String → String → String → String
  | .sqlserver, t, c, cm => "EXEC #ADD_COLUMN_COMMENT @tableName = \x27" ++ t
      ++ "\x27, @columnName = \x27" ++ c ++ "\x27, @comment = \x27" ++ cm ++ "\x27\nGO\n"
  | .oracle, t, c, cm => "ADD_COLUMN_COMMENT(\x27" ++ t ++ "\x27, \x27" ++ c
      ++ "\x27, \x27" ++ cm ++ "\x27);\n"

def fkCall : DbType → String → String × String × String → String
  | .sqlserver, t, (c, ft, ff) => "EXEC #CREATE_FOREIGN_KEY @tableName = \x27" ++ t
      ++ "\x27, @columnName = \x27" ++ c ++ "\x27, @foreignTableName = \x27" ++ ft
      ++ "\x27, @foreignColumnName = \x27" ++ ff ++ "\x27\nGO\n"
  | .oracle, t, (c, ft, ff) => "CREATE_FOREIGN_KEY(\x27" ++ t ++ "\x27, \x27" ++ c
      ++ "\x27, \x27" ++ ft ++ "\x27, \x27" ++ ff ++ "\x27);\n"

def endScript : DbType → String
  | .sqlserver => ""
  | .oracle => "END;\n"

/-- The writes of one iteration of the create-table loop (lines 311-329). -/
def emitTableStep (db : DbType) (w : List String) (p : String × TableAcc) : List String :=
  let w1 := w ++ [createCall db p.1 (sepJoin ",\n    " p.2.cols)]
  let w2 := if p.2.pks ≠ [] then w1 ++ [pkCall db p.1 (sepJoin ", " p.2.pks)] else w1
  let w3 := if p.2.uks ≠ [] then w2 ++ [nkCall db p.1 (sepJoin ", " p.2.uks)] else w2
  let w4 := w3 ++ ["\n"]
  let w5 := p.2.cmts.foldl
    (fun w cd => w ++ [commentCall db p.1 cd.1 (escapeSingleQuotes cd.2)]) w4
  w5 ++ ["\n"]

/-- The writes of generate_ddl up to the end script (lines 260-334):
procedures content, newline, drop loop, newline, create-table loop and
foreign-key loop. -/
def emitDDLWritesCore (db : DbType) (proc : String) (m : List (String × TableAcc)) :
    List String :=
  m.foldl (fun w p => p.2.fks.foldl (fun w2 fk => w2 ++ [fkCall db p.1 fk]) w)
    (m.foldl (emitTableStep db)
      ((m.foldl (fun w p => w ++ [dropCall db p.1]) [proc, "\n"]) ++ ["\n"]))

/-- The full sequence of `file.write` calls of generate_ddl (lines 260-337),
with the end script appended when nonempty (lines 336-337). -/
def emitDDLWrites (db : DbType) (proc : String) (m : List (String × TableAcc)) :
    List String :=
  if endScript db ≠ "" then emitDDLWritesCore db proc m ++ [endScript db]
  else emitDDLWritesCore db proc m

/-- The generated DDL script text. -/
def ddlScript (db : DbType) (proc : String) (rows : List Row) : String :=
  sjoin (emitDDLWrites db proc (buildDDLModel db rows))

/-! ### The spec's description of the DDL output (section 4.4 of the spec) -/

def listFlat {α β : Type} (f : α → List β) : List α → List β
  | [] => []
  | x :: xs => f x ++ listFlat f xs

/-- Spec, section 4.4 item 3: per table a create-table call whose body
comma-joins the column definitions, a create-primary-key call exactly when the
table has primary-key columns, a create-natural-key call exactly when it has
natural-key columns, and one add-column-comment call per recorded comment in
row order with single quotes in descriptions doubled. -/
def specTableBlock (db : DbType) (p : String × TableAcc) : List String :=
  [createCall db p.1 (sepJoin ",\n    " p.2.cols)]
  ++ (if p.2.pks ≠ [] then [pkCall db p.1 (sepJoin ", " p.2.pks)] else [])
  ++ (if p.2.uks ≠ [] then [nkCall db p.1 (sepJoin ", " p.2.uks)] else [])
  ++ ["\n"]
  ++ p.2.cmts.map (fun cd => commentCall db p.1 cd.1 (escapeSingleQuotes cd.2))
  ++ ["\n"]

/-- Spec, section 4.4: procedures content first, one drop-table call per table
in table-first-seen order, the per-table blocks in the same order, one
create-foreign-key call per entry across tables in table order then per-table
order, and for Oracle only a trailing script terminator. -/
def specDDLWrites (db : DbType) (proc : String) (m : List (String × TableAcc)) :
    List String :=
  [proc, "\n"]
  ++ m.map (fun p => dropCall db p.1)
  ++ ["\n"]
  ++ listFlat (specTableBlock db) m
  ++ listFlat (fun p => p.2.fks.map (fkCall db p.1)) m
  ++ (match db with
    | .oracle => ["END;\n"]
    | .sqlserver => [])


/-! ### Folding writes versus mapped blocks -/

theorem listFlat_singleton {α β : Type} (g : α → β) (l : List α) :
    listFlat (fun x => [g x]) l = l.map g := by
  induction l with
  | nil => rfl
  | cons x xs ih => simp [listFlat, ih]

theorem foldl_app {α β : Type} {F : List β → α → List β} (f : α → List β)
    (h : ∀ w x, F w x = w ++ f x) (l : List α) (w : List β) :
    l.foldl F w = w ++ listFlat f l := by
  induction l generalizing w with
  | nil => simp [listFlat]
  | cons x xs ih =>
    rw [List.foldl_cons, h, ih, List.append_assoc]
    rfl

theorem emitTableStep_eq (db : DbType) (w : List String) (p : String × TableAcc) :
    emitTableStep db w p = w ++ specTableBlock db p := by
  unfold emitTableStep specTableBlock
  have hc := foldl_app (fun cd : String × String =>
      [commentCall db p.1 cd.1 (escapeSingleQuotes cd.2)]) (fun _ _ => rfl) p.2.cmts
  by_cases h1 : p.2.pks = [] <;> by_cases h2 : p.2.uks = [] <;>
    simp [h1, h2, hc, listFlat_singleton, List.append_assoc]

/-! ### Claim C2: structure of the emitted DDL script -/

/-- C2: for every populated model and either dialect the emitted write
sequence is exactly: the procedures-file content, one drop-table call per
table in first-seen order, then per table a create-table call on the
comma-joined column definitions followed by a primary-key call exactly when
primary-key columns exist, a natural-key call exactly when natural-key columns
exist and one comment call per recorded comment (quotes doubled) in row order,
then one foreign-key call per entry across tables in order, and an Oracle-only
trailing terminator. -/
theorem C2_ddl_emitter_structure :
    ∀ (db : DbType) (proc : String) (m : List (String × TableAcc)),
      emitDDLWrites db proc m = specDDLWrites db proc m := by
  intro db proc m
  have hfk : ∀ (w : List String) (p : String × TableAcc),
      p.2.fks.foldl (fun w2 fk => w2 ++ [fkCall db p.1 fk]) w
        = w ++ p.2.fks.map (fkCall db p.1) := by
    intro w p
    rw [foldl_app (fun fk => [fkCall db p.1 fk]) (fun _ _ => rfl), listFlat_singleton]
  cases db
  all_goals
    unfold emitDDLWrites emitDDLWritesCore specDDLWrites
    rw [foldl_app (fun p : String × TableAcc => [dropCall _ p.1]) (fun _ _ => rfl) m,
      foldl_app (specTableBlock _) (emitTableStep_eq _) m,
      foldl_app (fun p : String × TableAcc => p.2.fks.map (fkCall _ p.1)) hfk m]
    simp [listFlat_singleton, List.append_assoc, endScript]


/-! ### Association-list and first-seen-deduplication lemmas -/

def keysOf {β : Type} (l : List (String × β)) : List String := l.map (fun p => p.1)

theorem hasKey_iff_mem {β : Type} (l : List (String × β)) (k : String) :
    hasKey l k = true ↔ k ∈ keysOf l := by
  induction l with
  | nil => simp [hasKey, assocLookup, keysOf]
  | cons p rest ih =>
    obtain ⟨k0, v⟩ := p
    by_cases hk : k = k0
    · subst hk
      simp [hasKey, assocLookup, keysOf]
    · have ih' := ih
      simp only [hasKey, keysOf] at ih'
      simp only [hasKey, assocLookup, if_neg hk, keysOf, List.map_cons, List.mem_cons, hk,
        false_or]
      exact ih' 

theorem keysOf_updateAssoc {β : Type} (l : List (String × β)) (k : String) (f : β → β) :
    keysOf (updateAssoc l k f) = keysOf l := by
  induction l with
  | nil => rfl
  | cons p rest ih =>
    obtain ⟨k', v⟩ := p
    by_cases hk : k = k'
    · simp [updateAssoc, hk, keysOf]
    · simp only [updateAssoc, if_neg hk]
      simp only [keysOf, List.map_cons] at ih ⊢
      rw [ih]

theorem keysOf_append {β : Type} (l l₂ : List (String × β)) :
    keysOf (l ++ l₂) = keysOf l ++ keysOf l₂ := by
  simp [keysOf]

theorem lookup_updateAssoc {β : Type} (l : List (String × β)) (k k' : String) (f : β → β) :
    assocLookup (updateAssoc l k f) k'
      = if k' = k then (assocLookup l k').map f else assocLookup l k' := by
  induction l with
  | nil => by_cases hk : k' = k <;> simp [updateAssoc, assocLookup, hk]
  | cons p rest ih =>
    obtain ⟨k0, v⟩ := p
    by_cases h1 : k = k0
    · subst h1
      by_cases h2 : k' = k
      · subst h2
        simp [updateAssoc, assocLookup]
      · simp [updateAssoc, assocLookup, h2, ih]
    · have hu : updateAssoc ((k0, v) :: rest) k f = (k0, v) :: updateAssoc rest k f := by
        simp [updateAssoc, h1]
      rw [hu]
      by_cases h2 : k' = k0
      · subst h2
        have hne : ¬(k' = k) := fun hc => h1 hc.symm
        simp [assocLookup, hne]
      · simp [assocLookup, h2, ih]

theorem lookup_append {β : Type} (l l₂ : List (String × β)) (k : String) :
    assocLookup (l ++ l₂) k
      = match assocLookup l k with
        | some v => some v
        | none => assocLookup l₂ k := by
  induction l with
  | nil => simp [assocLookup]
  | cons p rest ih =>
    obtain ⟨k0, v⟩ := p
    by_cases hk : k = k0
    · simp [assocLookup, hk]
    · simp [assocLookup, hk, ih]

/-- First-occurrence deduplication with an explicit seen set (the behaviour of
a Python dict keyed by the value, and of pandas drop_duplicates). -/
def dedupSeen {α : Type} [DecidableEq α] (seen : List α) : List α → List α
  | [] => []
  | x :: xs => if x ∈ seen then dedupSeen seen xs else x :: dedupSeen (x :: seen) xs

theorem dedupSeen_mem {α : Type} [DecidableEq α] {a : α} :
    ∀ {seen l : List α}, a ∈ dedupSeen seen l ↔ a ∈ l ∧ a ∉ seen := by
  intro seen l
  induction l generalizing seen with
  | nil => simp [dedupSeen]
  | cons x xs ih =>
    by_cases hx : x ∈ seen
    · rw [dedupSeen, if_pos hx, ih]
      constructor
      · exact fun h => ⟨List.mem_cons_of_mem x h.1, h.2⟩
      · rintro ⟨h1, h2⟩
        rcases List.mem_cons.mp h1 with rfl | h3
        · exact absurd hx h2
        · exact ⟨h3, h2⟩
    · rw [dedupSeen, if_neg hx]
      by_cases ha : a = x
      · subst ha
        simp [hx]
      · simp only [List.mem_cons, ha, false_or]
        rw [ih]
        simp [List.mem_cons, ha]

theorem dedupSeen_nodup {α : Type} [DecidableEq α] :
    ∀ (seen l : List α), (dedupSeen seen l).Nodup := by
  intro seen l
  induction l generalizing seen with
  | nil => simp [dedupSeen]
  | cons x xs ih =>
    by_cases hx : x ∈ seen
    · rw [dedupSeen, if_pos hx]
      exact ih seen
    · rw [dedupSeen, if_neg hx]
      refine List.nodup_cons.mpr ⟨?_, ih _⟩
      intro hmem
      exact ((dedupSeen_mem.mp hmem).2) (List.mem_cons_self x seen)

theorem dedupSeen_congr {α : Type} [DecidableEq α] :
    ∀ {l s₁ s₂ : List α}, (∀ a ∈ l, a ∈ s₁ ↔ a ∈ s₂) →
      dedupSeen s₁ l = dedupSeen s₂ l := by
  intro l
  induction l with
  | nil => intro s₁ s₂ _; rfl
  | cons x xs ih =>
    intro s₁ s₂ h
    by_cases hx : x ∈ s₁
    · rw [dedupSeen, if_pos hx, dedupSeen,
        if_pos ((h x (List.mem_cons_self x xs)).mp hx)]
      exact ih fun a ha => h a (List.mem_cons_of_mem x ha)
    · rw [dedupSeen, if_neg hx, dedupSeen,
        if_neg (fun hc => hx ((h x (List.mem_cons_self x xs)).mpr hc))]
      congr 1
      refine ih fun a ha => ?_
      simp only [List.mem_cons]
      rw [h a (List.mem_cons_of_mem x ha)]

/-! ### Characterising the DDL model builder -/

/-- The accumulator seen by one table across the row loop: `none` until the
table is first seen, then the accumulated record. -/
def accFold (db : DbType) (a : Option TableAcc) (rs : List Row) : Option TableAcc :=
  rs.foldl (fun o r => some (ddlAppendRow db (o.getD emptyAcc) r)) a

theorem accFold_some (db : DbType) (a : TableAcc) (rs : List Row) :
    accFold db (some a) rs = some (rs.foldl (ddlAppendRow db) a) := by
  induction rs generalizing a with
  | nil => rfl
  | cons r rs ih => simp [accFold, List.foldl_cons] at ih ⊢; exact ih _

theorem buildDDL_lookup (db : DbType) :
    ∀ (rows : List Row) (st : List (String × TableAcc)) (t : String),
      assocLookup (rows.foldl (ddlStep db) st) t
        = accFold db (assocLookup st t)
            (rows.filter (fun r => r.DOMAIN.isSome && (r.tableS = t))) := by
  intro rows
  induction rows with
  | nil => intro st t; rfl
  | cons r rows ih =>
    intro st t
    rw [List.foldl_cons]
    by_cases hdom : r.DOMAIN.isNone
    · have hstep : ddlStep db st r = st := by rw [ddlStep, if_pos hdom]
      have hq : (r.DOMAIN.isSome && (r.tableS = t : Bool)) = false := by
        rw [Option.isNone_iff_eq_none] at hdom
        simp [hdom]
      rw [hstep, ih, List.filter_cons, hq]
      simp
    · have hsome : r.DOMAIN.isSome := by
        rcases hr : r.DOMAIN with _ | v
        · rw [hr] at hdom; simp at hdom
        · simp
      have hstep : ddlStep db st r
          = updateAssoc (if hasKey st r.tableS then st else st ++ [(r.tableS, emptyAcc)])
              r.tableS (fun a => ddlAppendRow db a r) := by
        rw [ddlStep, if_neg hdom]
      by_cases ht : r.tableS = t
      · subst ht
        have hq : (r.DOMAIN.isSome && (r.tableS = r.tableS : Bool)) = true := by
          simp [hsome]
        rw [hstep, ih, List.filter_cons, hq]
        have hlook : assocLookup
            (updateAssoc (if hasKey st r.tableS then st else st ++ [(r.tableS, emptyAcc)])
              r.tableS (fun a => ddlAppendRow db a r)) r.tableS
            = some (ddlAppendRow db ((assocLookup st r.tableS).getD emptyAcc) r) := by
          rw [lookup_updateAssoc, if_pos rfl]
          by_cases hk : hasKey st r.tableS
          · rw [if_pos hk]
            rcases hl : assocLookup st r.tableS with _ | a
            · exfalso
              rw [hasKey, hl] at hk
              simp at hk
            · simp [hl]
          · rw [if_neg hk, lookup_append]
            have hnone : assocLookup st r.tableS = none := by
              rcases hl : assocLookup st r.tableS with _ | a
              · rfl
              · exfalso
                rw [hasKey, hl] at hk
                simp at hk
            rw [hnone]
            simp [assocLookup, hnone]
        rw [hlook]
        rfl
      · have hq : (r.DOMAIN.isSome && (r.tableS = t : Bool)) = false := by
          simp [ht]
        rw [hstep, ih, List.filter_cons, hq]
        have hlook : assocLookup
            (updateAssoc (if hasKey st r.tableS then st else st ++ [(r.tableS, emptyAcc)])
              r.tableS (fun a => ddlAppendRow db a r)) t = assocLookup st t := by
          rw [lookup_updateAssoc, if_neg (fun hc : t = r.tableS => ht hc.symm)]
          by_cases hk : hasKey st r.tableS
          · rw [if_pos hk]
          · rw [if_neg hk, lookup_append]
            rcases hl : assocLookup st t with _ | a
            · have hne : ¬(t = r.tableS) := fun hc => ht hc.symm
              simp [assocLookup, hne]
            · rfl
        rw [hlook]
        simp


theorem buildDDL_keys (db : DbType) :
    ∀ (rows : List Row) (st : List (String × TableAcc)),
      keysOf (rows.foldl (ddlStep db) st)
        = keysOf st ++ dedupSeen (keysOf st)
            ((rows.filter (fun r => r.DOMAIN.isSome)).map Row.tableS) := by
  intro rows
  induction rows with
  | nil => intro st; simp [dedupSeen]
  | cons r rows ih =>
    intro st
    rw [List.foldl_cons, List.filter_cons]
    by_cases hdom : r.DOMAIN.isNone
    · have hstep : ddlStep db st r = st := by rw [ddlStep, if_pos hdom]
      have hq : r.DOMAIN.isSome = false := by
        rw [Option.isNone_iff_eq_none] at hdom
        simp [hdom]
      rw [hstep, ih, hq]
      simp
    · have hq : r.DOMAIN.isSome = true := by
        rcases hr : r.DOMAIN with _ | v
        · rw [hr] at hdom; simp at hdom
        · simp
      have hstep : ddlStep db st r
          = updateAssoc (if hasKey st r.tableS then st else st ++ [(r.tableS, emptyAcc)])
              r.tableS (fun a => ddlAppendRow db a r) := by
        rw [ddlStep, if_neg hdom]
      rw [hq, if_pos rfl, List.map_cons]
      by_cases hk : hasKey st r.tableS
      · have hmem : r.tableS ∈ keysOf st := (hasKey_iff_mem st r.tableS).mp hk
        have hkeys : keysOf (ddlStep db st r) = keysOf st := by
          rw [hstep, if_pos hk, keysOf_updateAssoc]
        rw [ih, hkeys, dedupSeen, if_pos hmem]
      · have hmem : r.tableS ∉ keysOf st :=
          fun hc => hk ((hasKey_iff_mem st r.tableS).mpr hc)
        have hkeys : keysOf (ddlStep db st r) = keysOf st ++ [r.tableS] := by
          rw [hstep, if_neg hk, keysOf_updateAssoc, keysOf_append]
          rfl
        have hcongr : dedupSeen (keysOf st ++ [r.tableS])
              ((rows.filter (fun r => r.DOMAIN.isSome)).map Row.tableS)
            = dedupSeen (r.tableS :: keysOf st)
              ((rows.filter (fun r => r.DOMAIN.isSome)).map Row.tableS) :=
          dedupSeen_congr (fun a _ => by
            simp only [List.mem_append, List.mem_singleton, List.mem_cons]
            tauto)
        rw [ih, hkeys, hcongr, dedupSeen, if_neg hmem]
        simp [List.append_assoc]

theorem foldl_appendRow_cols (db : DbType) :
    ∀ (rs : List Row) (a0 : TableAcc),
      (rs.foldl (ddlAppendRow db) a0).cols = a0.cols ++ rs.map (columnDef db) := by
  intro rs
  induction rs with
  | nil => intro a0; simp
  | cons r rs ih =>
    intro a0
    rw [List.foldl_cons, ih]
    simp [ddlAppendRow, List.append_assoc]

/-! ### Claim C8: shape of the Schema Model -/

/-- C8: in the DDL model each table name occurring on a row with a non-blank
domain appears exactly once (the key list has no duplicates and contains
exactly those names), and a table's column-definition list is the
row-order-preserving image of its rows. -/
theorem C8_model_builder :
    ∀ (db : DbType) (rows : List Row),
      (keysOf (buildDDLModel db rows)).Nodup
      ∧ (∀ t : String, t ∈ keysOf (buildDDLModel db rows)
          ↔ ∃ r ∈ rows, r.DOMAIN.isSome ∧ r.tableS = t)
      ∧ (∀ (t : String) (a : TableAcc),
          assocLookup (buildDDLModel db rows) t = some a →
          a.cols = ((rows.filter (fun r => r.DOMAIN.isSome && (r.tableS = t))).map
            (columnDef db))) := by
  intro db rows
  refine ⟨?_, ?_, ?_⟩
  · rw [buildDDLModel, buildDDL_keys]
    simpa [keysOf] using dedupSeen_nodup [] ((rows.filter (fun r => r.DOMAIN.isSome)).map Row.tableS)
  · intro t
    rw [buildDDLModel, buildDDL_keys]
    simp only [keysOf, List.map_nil, List.nil_append]
    rw [dedupSeen_mem]
    simp only [List.mem_map, List.mem_filter, List.not_mem_nil, not_false_iff, and_true]
    constructor
    · rintro ⟨r, ⟨hr, hs⟩, rfl⟩
      exact ⟨r, hr, hs, rfl⟩
    · rintro ⟨r, hr, hs, rfl⟩
      exact ⟨r, ⟨hr, hs⟩, rfl⟩
  · intro t a h
    rw [buildDDLModel, buildDDL_lookup] at h
    rcases hq : rows.filter (fun r => r.DOMAIN.isSome && (r.tableS = t)) with _ | ⟨r0, rest⟩
    · rw [hq] at h
      exact absurd h (by simp [accFold, assocLookup])
    · rw [hq] at h
      have h2 : accFold db (some (ddlAppendRow db emptyAcc r0)) rest = some a := h
      rw [accFold_some] at h2
      have ha := Option.some.inj h2
      rw [← ha, foldl_appendRow_cols, hq]
      simp [ddlAppendRow, emptyAcc]


/-! ### Code-point comparison of strings and insertion sort (for the pandas
`sort_values(['DOMAIN', 'TABLE_NAME'])` of generate_d2, line 381) -/

/-- Python string `<=`: lexicographic on code points. -/
def listLeB : List Char → List Char → Bool
  | [], _ => true
  | _ :: _, [] => false
  | a :: as, b :: bs =>
    if a.toNat < b.toNat then true
    else if b.toNat < a.toNat then false
    else listLeB as bs

theorem char_toNat_inj {a b : Char} (h : a.toNat = b.toNat) : a = b :=
  Char.ext_iff.mpr (UInt32.ext h)

theorem listLeB_refl : ∀ l : List Char, listLeB l l = true := by
  intro l
  induction l with
  | nil => rfl
  | cons a as ih => simp [listLeB, Nat.lt_irrefl, ih]

theorem listLeB_total : ∀ a b : List Char, listLeB a b = false → listLeB b a = true := by
  intro a
  induction a with
  | nil => intro b h; simp [listLeB] at h
  | cons x xs ih =>
    intro b h
    cases b with
    | nil => rfl
    | cons y ys =>
      simp only [listLeB] at h ⊢
      by_cases h1 : x.toNat < y.toNat
      · rw [if_pos h1] at h
        exact absurd h (by simp)
      · rw [if_neg h1] at h
        by_cases h2 : y.toNat < x.toNat
        · rw [if_pos h2]
        · rw [if_neg h2] at h
          rw [if_neg (by omega), if_neg (by omega)]
          exact ih ys h

theorem listLeB_trans : ∀ a b c : List Char,
    listLeB a b = true → listLeB b c = true → listLeB a c = true := by
  intro a
  induction a with
  | nil => intro b c _ _; rfl
  | cons x xs ih =>
    intro b c hab hbc
    cases b with
    | nil => simp [listLeB] at hab
    | cons y ys =>
      cases c with
      | nil => simp [listLeB] at hbc
      | cons z zs =>
        simp only [listLeB] at hab hbc ⊢
        by_cases h1 : x.toNat < y.toNat <;> by_cases h2 : y.toNat < z.toNat
        · rw [if_pos (by omega)]
        · rw [if_pos h1] at hab
          rw [if_neg h2] at hbc
          by_cases h3 : z.toNat < y.toNat
          · rw [if_pos h3] at hbc
            exact absurd hbc (by simp)
          · rw [if_pos (by omega)]
        · rw [if_neg h1] at hab
          by_cases h3 : y.toNat < x.toNat
          · rw [if_pos h3] at hab
            exact absurd hab (by simp)
          · rw [if_pos (by omega)]
        · rw [if_neg h1] at hab
          rw [if_neg h2] at hbc
          by_cases h3 : y.toNat < x.toNat
          · rw [if_pos h3] at hab
            exact absurd hab (by simp)
          · by_cases h4 : z.toNat < y.toNat
            · rw [if_pos h4] at hbc
              exact absurd hbc (by simp)
            · rw [if_neg h3] at hab
              rw [if_neg h4] at hbc
              rw [if_neg (by omega), if_neg (by omega)]
              exact ih ys zs hab hbc

theorem listLeB_antisymm : ∀ a b : List Char,
    listLeB a b = true → listLeB b a = true → a = b := by
  intro a
  induction a with
  | nil =>
    intro b _ hba
    cases b with
    | nil => rfl
    | cons y ys => simp [listLeB] at hba
  | cons x xs ih =>
    intro b hab hba
    cases b with
    | nil => simp [listLeB] at hab
    | cons y ys =>
      simp only [listLeB] at hab hba
      by_cases h1 : x.toNat < y.toNat
      · rw [if_neg (by omega), if_pos h1] at hba
        exact absurd hba (by simp)
      · by_cases h2 : y.toNat < x.toNat
        · rw [if_neg h1, if_pos h2] at hab
          exact absurd hab (by simp)
        · rw [if_neg h1, if_neg h2] at hab
          rw [if_neg h2, if_neg h1] at hba
          have hx : x = y := char_toNat_inj (by omega)
          rw [hx, ih ys hab hba]

/-- The sort key of line 381: domain first, then table name, each compared as
Python compares strings. -/
def pairLe (p q : String × String) : Bool :=
  if p.2 = q.2 then listLeB p.1.data q.1.data else listLeB p.2.data q.2.data

theorem pairLe_refl (p : String × String) : pairLe p p = true := by
  simp [pairLe, listLeB_refl]

theorem pairLe_total (p q : String × String) (h : pairLe p q = false) : pairLe q p = true := by
  unfold pairLe at h ⊢
  by_cases h2 : p.2 = q.2
  · rw [if_pos h2] at h
    rw [if_pos h2.symm]
    exact listLeB_total _ _ h
  · rw [if_neg h2] at h
    rw [if_neg (fun hc => h2 hc.symm)]
    exact listLeB_total _ _ h

theorem strData_inj {s t : String} (h : s.data = t.data) : s = t := by
  have h2 : String.mk s.data = String.mk t.data := congrArg String.mk h
  exact h2

theorem pairLe_trans (p q r : String × String) (h1 : pairLe p q = true)
    (h2 : pairLe q r = true) : pairLe p r = true := by
  unfold pairLe at h1 h2 ⊢
  by_cases e1 : p.2 = q.2 <;> by_cases e2 : q.2 = r.2
  · rw [if_pos e1] at h1
    rw [if_pos e2] at h2
    rw [if_pos (e1.trans e2)]
    exact listLeB_trans _ _ _ h1 h2
  · rw [if_pos e1] at h1
    rw [if_neg e2] at h2
    rw [if_neg (fun hc => e2 (e1.symm.trans hc)), e1]
    exact h2
  · rw [if_neg e1] at h1
    rw [if_pos e2] at h2
    rw [if_neg (fun hc => e1 (hc.trans e2.symm)), ← e2]
    exact h1
  · rw [if_neg e1] at h1
    rw [if_neg e2] at h2
    by_cases e3 : p.2 = r.2
    · exfalso
      have h2x : listLeB q.2.data p.2.data = true := by rw [e3]; exact h2
      have hq : q.2 = p.2 := strData_inj (listLeB_antisymm _ _ h2x h1)
      exact e1 hq.symm
    · rw [if_neg e3]
      exact listLeB_trans _ _ _ h1 h2

/-- Insertion into a sorted list. -/
def insertLe {α : Type} (le : α → α → Bool) (x : α) : List α → List α
  | [] => [x]
  | y :: ys => if le x y then x :: y :: ys else y :: insertLe le x ys

/-- Insertion sort; on the duplicate-free keyed pairs it sorts, this agrees
with the pandas sort of line 381 (all sort keys are distinct there). -/
def isort {α : Type} (le : α → α → Bool) : List α → List α
  | [] => []
  | x :: xs => insertLe le x (isort le xs)

theorem mem_insertLe {α : Type} (le : α → α → Bool) (x a : α) :
    ∀ l : List α, a ∈ insertLe le x l ↔ a = x ∨ a ∈ l := by
  intro l
  induction l with
  | nil => simp [insertLe]
  | cons y ys ih =>
    by_cases h : le x y
    · simp [insertLe, h]
    · rw [insertLe, if_neg h]
      simp only [List.mem_cons, ih]
      tauto

theorem mem_isort {α : Type} (le : α → α → Bool) (a : α) :
    ∀ l : List α, a ∈ isort le l ↔ a ∈ l := by
  intro l
  induction l with
  | nil => simp [isort]
  | cons x xs ih =>
    rw [isort, mem_insertLe]
    simp [ih]

theorem pairwise_insertLe {α : Type} {le : α → α → Bool}
    (htot : ∀ a b, le a b = false → le b a = true)
    (htrans : ∀ a b c, le a b = true → le b c = true → le a c = true) (x : α) :
    ∀ {l : List α}, l.Pairwise (fun a b => le a b = true) →
      (insertLe le x l).Pairwise (fun a b => le a b = true) := by
  intro l
  induction l with
  | nil => intro _; simp [insertLe]
  | cons y ys ih =>
    intro hp
    rcases List.pairwise_cons.mp hp with ⟨hy, hys⟩
    by_cases h : le x y
    · rw [insertLe, if_pos h]
      refine List.pairwise_cons.mpr ⟨?_, hp⟩
      intro b hb
      rcases List.mem_cons.mp hb with rfl | hb2
      · exact h
      · exact htrans x y b h (hy b hb2)
    · rw [insertLe, if_neg h]
      refine List.pairwise_cons.mpr ⟨?_, ih hys⟩
      intro b hb
      rcases (mem_insertLe le x b ys).mp hb with rfl | hb2
      · exact htot _ _ (Bool.eq_false_iff.mpr h)
      · exact hy b hb2

theorem pairwise_isort {α : Type} {le : α → α → Bool}
    (htot : ∀ a b, le a b = false → le b a = true)
    (htrans : ∀ a b c, le a b = true → le b c = true → le a c = true) :
    ∀ l : List α, (isort le l).Pairwise (fun a b => le a b = true) := by
  intro l
  induction l with
  | nil => simp [isort]
  | cons x xs ih => exact pairwise_insertLe htot htrans x ih


/-! ### The diagram emitter (generate_d2, lines 348-557) -/

/-- One column record of the diagram builder (lines 409-416). -/
structure D2Column where
  name : String
  type : String
  pk : Bool
  fk : Bool
  fk_table : String
  fk_column : String
deriving DecidableEq

/-- Lines 405-416: `has_fk` is FKEY_TABLE nonempty; `pk` is PRIMARY_KEY = Y. -/
def mkColumn (r : Row) : D2Column :=
  { name := r.columnS
    type := r.sqlTypeS
    pk := decide (r.PRIMARY_KEY.getD "" = "Y")
    fk := decide (r.fkTableS ≠ "")
    fk_table := r.fkTableS
    fk_column := r.fkColumnS }

/-- One `all_tables` entry (lines 421-424). -/
structure D2Table where
  domain : String
  columns : List D2Column
deriving DecidableEq

/-- Lines 398-417: the columns of a table are its rows (any domain) minus the
empty-domain ones, in row order. -/
def columnsFor (rows : List Row) (t : String) : List D2Column :=
  (rows.filter (fun r => decide (r.tableS = t) && decide (r.domainS ≠ ""))).map mkColumn

/-- The de-duplicated (TABLE_NAME, DOMAIN) pairs of line 381
(`drop_duplicates` keeps first occurrences). -/
def d2Pairs (rows : List Row) : List (String × String) :=
  dedupSeen [] (rows.map (fun r => (r.tableS, r.domainS)))

/-- The pairs sorted by (DOMAIN, TABLE_NAME), line 381. -/
def sortedPairs (rows : List Row) : List (String × String) :=
  isort pairLe (d2Pairs rows)

/-- Python dict assignment: replace in place when present, else append. -/
def setAssoc {β : Type} (l : List (String × β)) (k : String) (v : β) :
    List (String × β) :=
  if hasKey l k then updateAssoc l k (fun _ => v) else l ++ [(k, v)]

/-- One iteration of the table loop (lines 387-424): skip empty domains,
otherwise (re)assign the table entry. -/
def d2Step (rows : List Row) (ats : List (String × D2Table)) (p : String × String) :
    List (String × D2Table) :=
  if p.2 = "" then ats
  else setAssoc ats p.1 { domain := p.2, columns := columnsFor rows p.1 }

/-- The `all_tables` dict after the loop of lines 387-424. -/
def d2AllTables (rows : List Row) : List (String × D2Table) :=
  (sortedPairs rows).foldl (d2Step rows) []

/-- One step of the `domains` grouping (lines 470-474): append the table name
to its domain's list, creating the domain entry on first sight. -/
def groupStep (ds : List (String × List String)) (p : String × D2Table) :
    List (String × List String) :=
  if hasKey ds p.2.domain then updateAssoc ds p.2.domain (fun ts => ts ++ [p.1])
  else ds ++ [(p.2.domain, [p.1])]

/-- The `domains` grouping of lines 469-474. -/
def groupFold (l : List (String × D2Table)) : List (String × List String) :=
  l.foldl groupStep []

def d2Domains (rows : List Row) : List (String × List String) :=
  groupFold (d2AllTables rows)

/-- A domain identifier as emitted (lines 479, 519, 525-527). -/
def domainId (d : String) : String :=
  sanitize_d2_identifier (spaceToUnderscore (pyLower d))

/-- Constraint tags of one column line (lines 496-500). -/
def constraintsOf (c : D2Column) : List String :=
  (if c.pk then ["primary_key"] else []) ++ (if c.fk then ["foreign_key"] else [])

/-- Lines 502-504: the constraint suffix of a column line. -/
def constraintsStr (c : D2Column) : String :=
  if constraintsOf c ≠ [] then
    " \x7bconstraint: [" ++ sepJoin "," (constraintsOf c) ++ "]\x7d"
  else ""

/-- Line 506: one column line of a table block. -/
def columnLine (c : D2Column) : String :=
  "    " ++ sanitize_d2_identifier c.name ++ ": " ++ c.type ++ constraintsStr c ++ "\n"

/-- Lines 491-508: one table block. -/
def tableBlock (t : String) (info : D2Table) : String :=
  "  " ++ sanitize_d2_identifier t ++ ": \x7b\n" ++ "    shape: sql_table\n"
  ++ sjoin (info.columns.map columnLine) ++ "  \x7d\n\n"

/-- Lines 478-510: one domain block. -/
def domainBlock (ats : List (String × D2Table)) (p : String × List String) : String :=
  "# " ++ p.1 ++ " Domain\n" ++ domainId p.1 ++ ": \x7b\n"
  ++ "  label: \"" ++ p.1 ++ " Domain\"\n"
  ++ sjoin (p.2.map (fun t => tableBlock t ((assocLookup ats t).getD ⟨"", []⟩)))
  ++ "\x7d\n\n"

/-- Line 522: a relationship is emitted only when the column has a foreign-key
flag and both FKEY_TABLE and FKEY_COLUMN are nonempty. -/
def relQual (c : D2Column) : Bool :=
  c.fk && decide (c.fk_table ≠ "") && decide (c.fk_column ≠ "")

/-- Lines 524-527: the domain of the referenced table, defaulting to the
literal "Other" when the referenced table is not in the model. -/
def relTargetDomain (ats : List (String × D2Table)) (ft : String) : String :=
  domainId (((assocLookup ats ft).map (fun i => i.domain)).getD "Other")

/-- Lines 533-547: the fixed arrowhead/label block of a relationship. -/
def relArrowBlock : String :=
  ": \x7b\n  source-arrowhead: \x7b\n    shape: diamond\n    style: \x7b\n      filled: true\n    \x7d\n  \x7d\n  target-arrowhead: \x7b\n    shape: arrow\n    style: \x7b\n      filled: false\n    \x7d\n  \x7d\n  label: \"has\"\n\x7d\n\n"

/-- One relationship statement (lines 533-547): referenced domain.table on the
left, pointing at the holding table. -/
def relChunk (ats : List (String × D2Table)) (t : String) (info : D2Table)
    (c : D2Column) : String :=
  relTargetDomain ats c.fk_table ++ "." ++ sanitize_d2_identifier c.fk_table ++ " -> "
  ++ domainId info.domain ++ "." ++ sanitize_d2_identifier t ++ relArrowBlock

/-- The relationship statements in emission order (lines 517-547). -/
def relChunks (ats : List (String × D2Table)) : List String :=
  ats.foldl (fun acc p =>
    p.2.columns.foldl
      (fun acc c => if relQual c then acc ++ [relChunk ats p.1 p.2 c] else acc) acc) []

/-- The diagram text as a function of `all_tables` (lines 429-557). -/
def renderD2 (ats : List (String × D2Table)) : String :=
  "# Cobra Web Data Model (D2 Format)\n\n"
  ++ sjoin ((groupFold ats).map (domainBlock ats))
  ++ "# Define relationships\n"
  ++ sjoin (relChunks ats)

/-- The full generated diagram text. -/
def d2Content (rows : List Row) : String := renderD2 (d2AllTables rows)


/-! ### One relationship statement per qualifying foreign key -/

theorem foldl_filter_app {α β : Type} (q : α → Bool) (g : α → β) :
    ∀ (l : List α) (acc : List β),
      l.foldl (fun acc c => if q c then acc ++ [g c] else acc) acc
        = acc ++ (l.filter q).map g := by
  intro l
  induction l with
  | nil => intro acc; simp
  | cons c cs ih =>
    intro acc
    rw [List.foldl_cons, List.filter_cons]
    by_cases hq : q c
    · rw [if_pos hq, ih, if_pos hq]
      simp [List.append_assoc]
    · rw [if_neg hq, ih, if_neg hq]

theorem relChunks_eq (ats : List (String × D2Table)) :
    relChunks ats
      = listFlat (fun p => ((p.2.columns.filter relQual).map (relChunk ats p.1 p.2))) ats := by
  rw [relChunks,
    foldl_app (fun p => ((p.2.columns.filter relQual).map (relChunk ats p.1 p.2)))
      (fun acc p => foldl_filter_app relQual (relChunk ats p.1 p.2) p.2.columns acc) ats]
  rfl

/-! ### Claim C4: foreign keys whose target table is missing -/

/-- C4: the relationship section emits exactly one statement per qualifying
foreign-key column (the flat map of the qualifying columns across tables), and
when the referenced table is absent from the model the referenced side of the
statement carries the defaulted literal "Other" domain, emitted as the domain
identifier "other". -/
theorem C4_missing_fk_target :
    (∀ ats : List (String × D2Table),
      relChunks ats
        = listFlat (fun p => ((p.2.columns.filter relQual).map (relChunk ats p.1 p.2))) ats)
    ∧ (∀ (ats : List (String × D2Table)) (ft : String),
        assocLookup ats ft = none →
        relTargetDomain ats ft = domainId "Other" ∧ relTargetDomain ats ft = "other")
    ∧ (∀ (ats : List (String × D2Table)) (t : String) (info : D2Table) (c : D2Column),
        assocLookup ats c.fk_table = none →
        relChunk ats t info c
          = "other." ++ sanitize_d2_identifier c.fk_table ++ " -> "
            ++ domainId info.domain ++ "." ++ sanitize_d2_identifier t ++ relArrowBlock) := by
  refine ⟨relChunks_eq, ?_, ?_⟩
  · intro ats ft h
    rw [relTargetDomain, h]
    exact ⟨rfl, rfl⟩
  · intro ats t info c h
    rw [relChunk, relTargetDomain, h]
    rfl

/-- C4 witness: a model without table U still emits one statement for the
foreign key into U, with source domain "other". -/
theorem C4_missing_fk_target_witness :
    relTargetDomain [("T", ⟨"D", []⟩)] "U" = "other" :=
  (C4_missing_fk_target.2.1 [("T", ⟨"D", []⟩)] "U" (by decide)).2

/-! ### Claim C10: FKEY_TABLE set but FKEY_COLUMN empty -/

/-- C10: a column with a nonempty FKEY_TABLE and an empty FKEY_COLUMN gets the
foreign_key tag in its diagram table block, but qualifies for no relationship
statement, and the DDL builder records no foreign-key entry for it. -/
theorem C10_fk_tag_without_relationship :
    ∀ r : Row, r.fkTableS ≠ "" → r.fkColumnS = "" →
      (mkColumn r).fk = true
      ∧ "foreign_key" ∈ constraintsOf (mkColumn r)
      ∧ (∃ x y : String, constraintsStr (mkColumn r) = x ++ "foreign_key" ++ y)
      ∧ relQual (mkColumn r) = false
      ∧ (∀ (db : DbType) (acc : TableAcc), (ddlAppendRow db acc r).fks = acc.fks) := by
  intro r hft hfc
  have hfk : (mkColumn r).fk = true := by simp [mkColumn, hft]
  refine ⟨hfk, ?_, ?_, ?_, ?_⟩
  · simp [constraintsOf, hfk]
  · by_cases hpk : (mkColumn r).pk = true
    · refine ⟨" \x7bconstraint: [primary_key,", "]\x7d", ?_⟩
      rw [constraintsStr, constraintsOf, if_pos hpk, if_pos hfk]
      rw [if_pos (by simp)]
      rfl
    · refine ⟨" \x7bconstraint: [", "]\x7d", ?_⟩
      rw [constraintsStr, constraintsOf, if_neg hpk, if_pos hfk]
      rw [if_pos (by simp)]
      rfl
  · simp [relQual, mkColumn, hfc]
  · intro db acc
    rw [ddlAppendRow]
    simp [hfc]

/-- C10 witness: a concrete row with FKEY_TABLE = U and blank FKEY_COLUMN. -/
theorem C10_fk_tag_without_relationship_witness :
    (mkColumn { blankRow with FKEY_TABLE := some "U" }).fk = true
    ∧ relQual (mkColumn { blankRow with FKEY_TABLE := some "U" }) = false :=
  ⟨(C10_fk_tag_without_relationship { blankRow with FKEY_TABLE := some "U" }
      (by decide) (by decide)).1,
    (C10_fk_tag_without_relationship { blankRow with FKEY_TABLE := some "U" }
      (by decide) (by decide)).2.2.2.1⟩


/-- Rows of the spec's two-row example: (T, col1, PK=Y) and (T, col2, FK to U.id). -/
def wRow1 : Row :=
  { blankRow with
    DOMAIN := some "D"
    TABLE_NAME := some "T"
    COLUMN_NAME := some "col1"
    SQL_DATA_TYPE := some "NUMBER"
    PRIMARY_KEY := some "Y" }

def wRow2 : Row :=
  { blankRow with
    DOMAIN := some "D"
    TABLE_NAME := some "T"
    COLUMN_NAME := some "col2"
    SQL_DATA_TYPE := some "VARCHAR2"
    DATA_LENGTH := some "30"
    FKEY_TABLE := some "U"
    FKEY_COLUMN := some "id" }

/-- C8 witness: on the two example rows the single table T holds both column
definitions in row order. -/
theorem C8_model_builder_witness :
    (keysOf (buildDDLModel .oracle [wRow1, wRow2])).Nodup
    ∧ (⟨["col1 NUMBER", "col2 VARCHAR2(30)"], ["col1"], [("col2", "U", "id")], [], []⟩
          : TableAcc).cols
        = (([wRow1, wRow2].filter
            (fun r => r.DOMAIN.isSome && (r.tableS = "T"))).map (columnDef .oracle)) :=
  ⟨(C8_model_builder .oracle [wRow1, wRow2]).1,
    (C8_model_builder .oracle [wRow1, wRow2]).2.2 "T" _ (by rfl)⟩


/-! ### The JSON emitters (generate_plain_json, lines 562-600, and
generate_structured_json, lines 605-689) -/

/-- One flat record of the plain JSON dump: every field of the row under its
original name, blank cells as JSON null (pandas to_json on a dtype=str frame,
line 593). -/
def flatRecOf (r : Row) : List (String × Option String) :=
  [("DOMAIN", r.DOMAIN), ("TABLE_NAME", r.TABLE_NAME), ("COLUMN_NAME", r.COLUMN_NAME),
   ("DATA_TYPE", r.DATA_TYPE), ("SQL_DATA_TYPE", r.SQL_DATA_TYPE),
   ("DATA_LENGTH", r.DATA_LENGTH), ("SCALE", r.SCALE), ("NOT_NULL", r.NOT_NULL),
   ("DEFAULT", r.DEFAULT), ("PRIMARY_KEY", r.PRIMARY_KEY), ("FKEY_TABLE", r.FKEY_TABLE),
   ("FKEY_COLUMN", r.FKEY_COLUMN), ("DESCRIPTION", r.DESCRIPTION),
   ("NATURAL_KEY", r.NATURAL_KEY), ("TABLE_FLAGS", r.TABLE_FLAGS),
   ("TABLE_DESCRIPTION", r.TABLE_DESCRIPTION), ("COMMENTS", r.COMMENTS)]

/-- The plain JSON records: one per row, in row order, no filtering. -/
def plainRecords (rows : List Row) : List (List (String × Option String)) :=
  rows.foldl (fun acc r => acc ++ [flatRecOf r]) []

/-- One column record of the structured JSON (lines 670-675): the row minus
DOMAIN, TABLE_NAME, TABLE_FLAGS, TABLE_DESCRIPTION and COMMENTS. -/
structure SRec where
  COLUMN_NAME : String
  DATA_TYPE : String
  SQL_DATA_TYPE : String
  DATA_LENGTH : String
  SCALE : String
  NOT_NULL : String
  DEFAULT : String
  PRIMARY_KEY : String
  FKEY_TABLE : String
  FKEY_COLUMN : String
  DESCRIPTION : String
  NATURAL_KEY : String
deriving DecidableEq

def colRec (r : Row) : SRec :=
  ⟨r.columnS, r.DATA_TYPE.getD "", r.sqlTypeS, r.DATA_LENGTH.getD "", r.SCALE.getD "",
    r.NOT_NULL.getD "", r.DEFAULT.getD "", r.PRIMARY_KEY.getD "", r.fkTableS,
    r.fkColumnS, r.DESCRIPTION.getD "", r.NATURAL_KEY.getD ""⟩

/-- One table entry of the structured JSON (lines 663-667). -/
structure STable where
  flags : String
  desc : String
  cols : List SRec
deriving DecidableEq

/-- Python `if k not in d: d[k] = init` (lines 659-667). -/
def ensureAssoc {β : Type} (l : List (String × β)) (k : String) (init : β) :
    List (String × β) :=
  if hasKey l k then l else l ++ [(k, init)]

/-- One iteration of the grouping loop (lines 649-678). -/
def sjsonStep (g : List (String × List (String × STable))) (r : Row) :
    List (String × List (String × STable)) :=
  if r.domainS = "" then g
  else
    updateAssoc (ensureAssoc g r.domainS []) r.domainS (fun tl =>
      updateAssoc (ensureAssoc tl r.tableS
          ⟨r.TABLE_FLAGS.getD "", r.TABLE_DESCRIPTION.getD "", []⟩)
        r.tableS (fun e => { e with cols := e.cols ++ [colRec r] }))

/-- The DOMAINS-to-TABLES grouping of the structured JSON. -/
def sjsonBuild (rows : List Row) : List (String × List (String × STable)) :=
  rows.foldl sjsonStep []

/-! ### Process-level behaviour of the four emitters (claim C9)

Each generator checks its inputs before computing or writing anything
(lines 96-136, 351-354, 565-574, 616-624); a failed check prints a message
naming the offending value and exits with status 1. The result type carries
either that fatal error or the name of the single file the emitter writes. -/

inductive RunResult
  | err (msg : String) (code : Nat)
  | ok (outputFile : String)
deriving DecidableEq

def missingFileMsg (p : String) : String :=
  "\nError: The specified Excel file \x27" ++ p ++ "\x27 does not exist."

def missingSheetMsg (s : String) : String :=
  "\nError: The specified Excel sheet \x27" ++ s ++ "\x27 does not exist in the Excel file."

def invalidDbMsg (db : String) : String :=
  "\nError: The specified database type \x27" ++ db
    ++ "\x27 is not valid. Valid types are \x27oracle\x27 or \x27sqlserver\x27."

def missingProcMsg (f : String) : String :=
  "\nError: The specified SQL procedures file \x27" ++ f ++ "\x27 does not exist."

/-- generate_ddl checks in source order: Excel file, sheet, database type,
procedures file (lines 96-136); only then is the output file written. -/
def generate_ddl_run (excelExists sheetOk : Bool) (path sheet dbType : String)
    (procExists : Bool) (outPrefix : String) : RunResult :=
  if !excelExists then .err (missingFileMsg path) 1
  else if !sheetOk then .err (missingSheetMsg sheet) 1
  else if !(pyLower dbType = "oracle" || pyLower dbType = "sqlserver") then
    .err (invalidDbMsg (pyLower dbType)) 1
  else if !procExists then
    .err (missingProcMsg (if pyLower dbType = "oracle" then "Procedures_Oracle.sql"
      else "Procedures_SQLServer.sql")) 1
  else .ok (outPrefix ++ (if pyLower dbType = "oracle" then "_Oracle.sql"
    else "_SqlServer.sql"))

/-- generate_d2 checks only the Excel file (lines 351-354). -/
def generate_d2_run (excelExists : Bool) (path : String) (outPrefix : String) : RunResult :=
  if !excelExists then .err (missingFileMsg path) 1
  else .ok (outPrefix ++ ".d2")

/-- generate_plain_json checks the Excel file then the sheet (lines 565-574). -/
def generate_plain_json_run (excelExists sheetOk : Bool) (path sheet : String)
    (outPrefix : String) : RunResult :=
  if !excelExists then .err (missingFileMsg path) 1
  else if !sheetOk then .err (missingSheetMsg sheet) 1
  else .ok (outPrefix ++ "_json_plain.json")

/-- generate_structured_json checks the Excel file then the sheet (lines 616-624). -/
def generate_structured_json_run (excelExists sheetOk : Bool) (path sheet : String)
    (outPrefix : String) : RunResult :=
  if !excelExists then .err (missingFileMsg path) 1
  else if !sheetOk then .err (missingSheetMsg sheet) 1
  else .ok (outPrefix ++ "_json_structured.json")

/-! ### Claim C9: missing input file -/

/-- C9: with the input file absent, each of the four emitters terminates with
exit status 1 (nonzero) and the error message naming that path, producing no
output file (the error result carries none). -/
theorem C9_missing_input_file :
    ∀ (path sheet dbType : String) (sheetOk procExists : Bool) (outPrefix : String),
      generate_ddl_run false sheetOk path sheet dbType procExists outPrefix
          = .err (missingFileMsg path) 1
      ∧ generate_d2_run false path outPrefix = .err (missingFileMsg path) 1
      ∧ generate_plain_json_run false sheetOk path sheet outPrefix
          = .err (missingFileMsg path) 1
      ∧ generate_structured_json_run false sheetOk path sheet outPrefix
          = .err (missingFileMsg path) 1
      ∧ (∃ x y : String, missingFileMsg path = x ++ path ++ y)
      ∧ (1 : Nat) ≠ 0 := by
  intro path sheet dbType sheetOk procExists outPrefix
  exact ⟨rfl, rfl, rfl, rfl,
    ⟨"\nError: The specified Excel file \x27", "\x27 does not exist.", by
      rw [missingFileMsg, String.append_assoc]⟩,
    by decide⟩


/-! ### Filtering commutes with sorting, deduplication and the builders -/

theorem insertLe_all {α : Type} {le : α → α → Bool} (x : α) :
    ∀ {m : List α}, (∀ z ∈ m, le x z = true) → insertLe le x m = x :: m := by
  intro m h
  cases m with
  | nil => rfl
  | cons z zs => rw [insertLe, if_pos (h z (List.mem_cons_self z zs))]

theorem filter_insertLe {α : Type} {le : α → α → Bool}
    (htrans : ∀ a b c, le a b = true → le b c = true → le a c = true)
    (p : α → Bool) (x : α) :
    ∀ {l : List α}, l.Pairwise (fun a b => le a b = true) →
      (insertLe le x l).filter p
        = if p x then insertLe le x (l.filter p) else l.filter p := by
  intro l
  induction l with
  | nil =>
    intro _
    by_cases hp : p x
    · rw [if_pos hp]
      show [x].filter p = insertLe le x []
      rw [List.filter_cons, if_pos hp]
      rfl
    · rw [if_neg hp]
      show [x].filter p = []
      rw [List.filter_cons, if_neg hp]
      rfl
  | cons y ys ih =>
    intro hp
    obtain ⟨hy, hys⟩ := List.pairwise_cons.mp hp
    by_cases hxy : le x y
    · rw [insertLe, if_pos hxy]
      by_cases hpx : p x
      · rw [if_pos hpx, List.filter_cons, if_pos hpx]
        have hall : ∀ z ∈ (y :: ys).filter p, le x z = true := by
          intro z hz
          have hz2 := List.mem_of_mem_filter hz
          rcases List.mem_cons.mp hz2 with rfl | hz3
          · exact hxy
          · exact htrans x y z hxy (hy z hz3)
        rw [insertLe_all x hall]
      · rw [if_neg hpx, List.filter_cons, if_neg hpx]
    · rw [insertLe, if_neg hxy, List.filter_cons]
      by_cases hpy : p y
      · rw [if_pos hpy, ih hys]
        by_cases hpx : p x
        · rw [if_pos hpx, if_pos hpx, List.filter_cons, if_pos hpy, insertLe, if_neg hxy]
        · rw [if_neg hpx, if_neg hpx, List.filter_cons, if_pos hpy]
      · rw [if_neg hpy, ih hys]
        by_cases hpx : p x
        · rw [if_pos hpx, if_pos hpx, List.filter_cons, if_neg hpy]
        · rw [if_neg hpx, if_neg hpx, List.filter_cons, if_neg hpy]

theorem filter_isort {α : Type} {le : α → α → Bool}
    (htot : ∀ a b, le a b = false → le b a = true)
    (htrans : ∀ a b c, le a b = true → le b c = true → le a c = true) (p : α → Bool) :
    ∀ l : List α, (isort le l).filter p = isort le (l.filter p) := by
  intro l
  induction l with
  | nil => rfl
  | cons x xs ih =>
    rw [isort, filter_insertLe htrans p x (pairwise_isort htot htrans xs), List.filter_cons]
    by_cases hpx : p x
    · rw [if_pos hpx, if_pos hpx, ih, isort]
    · rw [if_neg hpx, if_neg hpx, ih]

theorem dedupSeen_filter_drop {α : Type} [DecidableEq α] (q : α → Bool) {x : α}
    (hx : q x = false) :
    ∀ (l seen : List α), (dedupSeen (x :: seen) l).filter q = (dedupSeen seen l).filter q := by
  intro l
  induction l with
  | nil => intro seen; rfl
  | cons y ys ih =>
    intro seen
    by_cases hyx : y = x
    · subst hyx
      rw [dedupSeen, if_pos (List.mem_cons_self y seen)]
      by_cases hmem : y ∈ seen
      · rw [dedupSeen, if_pos hmem]
        exact ih seen
      · rw [dedupSeen, if_neg hmem, List.filter_cons, if_neg (by rw [hx]; simp)]
    · by_cases hmem : y ∈ seen
      · rw [dedupSeen, if_pos (by simp [hyx, hmem]), dedupSeen, if_pos hmem]
        exact ih seen
      · rw [dedupSeen, if_neg (by simp [hyx, hmem]), dedupSeen, if_neg hmem]
        have hcongr : dedupSeen (y :: x :: seen) ys = dedupSeen (x :: y :: seen) ys :=
          dedupSeen_congr (fun a _ => by
            simp only [List.mem_cons]
            tauto)
        rw [List.filter_cons, List.filter_cons]
        by_cases hqy : q y
        · rw [if_pos hqy, if_pos hqy, hcongr, ih (y :: seen)]
        · rw [if_neg hqy, if_neg hqy, hcongr, ih (y :: seen)]

theorem dedupSeen_filter {α : Type} [DecidableEq α] (q : α → Bool) :
    ∀ (l seen : List α), (dedupSeen seen l).filter q = dedupSeen seen (l.filter q) := by
  intro l
  induction l with
  | nil => intro seen; rfl
  | cons y ys ih =>
    intro seen
    by_cases hmem : y ∈ seen
    · rw [dedupSeen, if_pos hmem, List.filter_cons]
      by_cases hqy : q y
      · rw [if_pos hqy, dedupSeen, if_pos hmem]
        exact ih seen
      · rw [if_neg hqy]
        exact ih seen
    · rw [dedupSeen, if_neg hmem, List.filter_cons, List.filter_cons]
      by_cases hqy : q y
      · rw [if_pos hqy, if_pos hqy, dedupSeen, if_neg hmem, ih (y :: seen)]
      · rw [if_neg hqy, if_neg hqy, dedupSeen_filter_drop q (Bool.eq_false_iff.mpr hqy),
          ih seen]

theorem filter_map_comm {α β : Type} (f : α → β) (q : β → Bool) :
    ∀ l : List α, (l.map f).filter q = (l.filter (fun x => q (f x))).map f := by
  intro l
  induction l with
  | nil => rfl
  | cons x xs ih =>
    rw [List.map_cons, List.filter_cons, List.filter_cons]
    by_cases hq : q (f x)
    · rw [if_pos hq, if_pos hq, List.map_cons, ih]
    · rw [if_neg hq, if_neg hq, ih]

theorem filter_filter_imp {α : Type} {p w : α → Bool} (h : ∀ a, p a = true → w a = true) :
    ∀ l : List α, (l.filter w).filter p = l.filter p := by
  intro l
  induction l with
  | nil => rfl
  | cons x xs ih =>
    by_cases hw : w x
    · rw [List.filter_cons, if_pos hw, List.filter_cons, List.filter_cons]
      by_cases hp : p x
      · rw [if_pos hp, if_pos hp, ih]
      · rw [if_neg hp, if_neg hp, ih]
    · rw [List.filter_cons, if_neg hw, List.filter_cons]
      by_cases hp : p x
      · exact absurd (h x hp) hw
      · rw [if_neg hp, ih]

theorem foldl_congr_fn {α β : Type} {f g : β → α → β} (h : ∀ b a, f b a = g b a) :
    ∀ (l : List α) (b : β), l.foldl f b = l.foldl g b := by
  intro l
  induction l with
  | nil => intro b; rfl
  | cons x xs ih =>
    intro b
    rw [List.foldl_cons, List.foldl_cons, h, ih]


/-! ### Claim C1: rows with an empty domain -/

theorem ddlFold_filter (db : DbType) :
    ∀ (rows : List Row) (st : List (String × TableAcc)),
      rows.foldl (ddlStep db) st
        = (rows.filter (fun r => r.DOMAIN.isSome)).foldl (ddlStep db) st := by
  intro rows
  induction rows with
  | nil => intro st; rfl
  | cons r rows ih =>
    intro st
    rw [List.foldl_cons, List.filter_cons]
    by_cases hd : r.DOMAIN.isNone
    · have hs : r.DOMAIN.isSome = false := by
        rw [Option.isNone_iff_eq_none] at hd
        simp [hd]
      rw [hs]
      simp only [Bool.false_eq_true, if_false]
      rw [show ddlStep db st r = st from by rw [ddlStep, if_pos hd]]
      exact ih st
    · have hs : r.DOMAIN.isSome = true := by
        rcases hr : r.DOMAIN with _ | v
        · rw [hr] at hd; simp at hd
        · simp
      rw [hs]
      simp only [if_true]
      rw [List.foldl_cons]
      exact ih _

theorem sjsonFold_filter :
    ∀ (rows : List Row) (g : List (String × List (String × STable))),
      rows.foldl sjsonStep g
        = (rows.filter (fun r => r.DOMAIN.isSome)).foldl sjsonStep g := by
  intro rows
  induction rows with
  | nil => intro g; rfl
  | cons r rows ih =>
    intro g
    rw [List.foldl_cons, List.filter_cons]
    by_cases hd : r.DOMAIN.isNone
    · have hs : r.DOMAIN.isSome = false := by
        rw [Option.isNone_iff_eq_none] at hd
        simp [hd]
      have hds : r.domainS = "" := by
        rw [Option.isNone_iff_eq_none] at hd
        simp [Row.domainS, hd]
      rw [hs]
      simp only [Bool.false_eq_true, if_false]
      rw [show sjsonStep g r = g from by rw [sjsonStep, if_pos hds]]
      exact ih g
    · have hs : r.DOMAIN.isSome = true := by
        rcases hr : r.DOMAIN with _ | v
        · rw [hr] at hd; simp at hd
        · simp
      rw [hs]
      simp only [if_true]
      rw [List.foldl_cons]
      exact ih _

theorem d2Fold_skip (rows : List Row) :
    ∀ (ps : List (String × String)) (ats : List (String × D2Table)),
      ps.foldl (d2Step rows) ats
        = (ps.filter (fun p => decide (p.2 ≠ ""))).foldl (d2Step rows) ats := by
  intro ps
  induction ps with
  | nil => intro ats; rfl
  | cons p ps ih =>
    intro ats
    rw [List.foldl_cons, List.filter_cons]
    by_cases hd : p.2 = ""
    · rw [if_neg (by simp [hd])]
      rw [show d2Step rows ats p = ats from by rw [d2Step, if_pos hd]]
      exact ih ats
    · rw [if_pos (by simp [hd]), List.foldl_cons]
      exact ih _

theorem columnsFor_filter (rows : List Row) (t : String) :
    columnsFor (rows.filter (fun r => r.DOMAIN.isSome)) t = columnsFor rows t := by
  unfold columnsFor
  rw [filter_filter_imp]
  intro r h
  rcases hr : r.DOMAIN with _ | v
  · exfalso
    rw [Bool.and_eq_true, decide_eq_true_eq, decide_eq_true_eq] at h
    exact h.2 (by simp [Row.domainS, hr])
  · simp [hr]

theorem d2AllTables_filter (rows : List Row) :
    d2AllTables (rows.filter (fun r => r.DOMAIN.isSome)) = d2AllTables rows := by
  have hstep : ∀ (ats : List (String × D2Table)) (p : String × String),
      d2Step (rows.filter (fun r => r.DOMAIN.isSome)) ats p = d2Step rows ats p := by
    intro ats p
    by_cases h : p.2 = ""
    · rw [d2Step, if_pos h, d2Step, if_pos h]
    · rw [d2Step, if_neg h, d2Step, if_neg h, columnsFor_filter]
  have hpairs : (sortedPairs (rows.filter (fun r => r.DOMAIN.isSome))).filter
        (fun p => decide (p.2 ≠ ""))
      = (sortedPairs rows).filter (fun p => decide (p.2 ≠ "")) := by
    unfold sortedPairs d2Pairs
    rw [filter_isort pairLe_total pairLe_trans, filter_isort pairLe_total pairLe_trans,
      dedupSeen_filter, dedupSeen_filter, filter_map_comm, filter_map_comm,
      filter_filter_imp]
    intro r h
    rcases hr : r.DOMAIN with _ | v
    · exfalso
      rw [decide_eq_true_eq] at h
      exact h (by simp [Row.domainS, hr])
    · simp [hr]
  calc d2AllTables (rows.filter (fun r => r.DOMAIN.isSome))
      = (sortedPairs (rows.filter (fun r => r.DOMAIN.isSome))).foldl (d2Step rows) [] :=
        foldl_congr_fn hstep _ _
    _ = ((sortedPairs (rows.filter (fun r => r.DOMAIN.isSome))).filter
          (fun p => decide (p.2 ≠ ""))).foldl (d2Step rows) [] := d2Fold_skip rows _ []
    _ = ((sortedPairs rows).filter (fun p => decide (p.2 ≠ ""))).foldl (d2Step rows) [] := by
        rw [hpairs]
    _ = (sortedPairs rows).foldl (d2Step rows) [] := (d2Fold_skip rows _ []).symm
    _ = d2AllTables rows := rfl

/-- C1: a row whose domain cell is blank contributes nothing to the DDL
script, the diagram, or the structured-JSON grouping (each equals its value on
the rows with the blank-domain rows removed), while the flat JSON serializes
every row - one record per row, field names and order preserved. -/
theorem C1_empty_domain_rows :
    ∀ (db : DbType) (proc : String) (rows : List Row),
      ddlScript db proc rows = ddlScript db proc (rows.filter (fun r => r.DOMAIN.isSome))
      ∧ d2Content rows = d2Content (rows.filter (fun r => r.DOMAIN.isSome))
      ∧ sjsonBuild rows = sjsonBuild (rows.filter (fun r => r.DOMAIN.isSome))
      ∧ plainRecords rows = rows.map flatRecOf := by
  intro db proc rows
  refine ⟨?_, ?_, ?_, ?_⟩
  · unfold ddlScript buildDDLModel
    rw [ddlFold_filter]
  · unfold d2Content
    rw [d2AllTables_filter]
  · unfold sjsonBuild
    rw [sjsonFold_filter]
  · rw [plainRecords, foldl_app (fun r => [flatRecOf r]) (fun _ _ => rfl), listFlat_singleton]
    rfl


/-! ### Order facts feeding the grouping of the diagram emitter -/

/-- Strict code-point order on strings. -/
def strLtP (a b : String) : Prop := listLeB a.data b.data = true ∧ a ≠ b

theorem pairLe_domain_le {p q : String × String} (h : pairLe p q = true) :
    listLeB p.2.data q.2.data = true := by
  unfold pairLe at h
  by_cases he : p.2 = q.2
  · rw [he]
    exact listLeB_refl _
  · rw [if_neg he] at h
    exact h

theorem pairLe_table_le {p q : String × String} (h : pairLe p q = true)
    (he : p.2 = q.2) : listLeB p.1.data q.1.data = true := by
  unfold pairLe at h
  rw [if_pos he] at h
  exact h

theorem nodup_insertLe {α : Type} (le : α → α → Bool) (x : α) :
    ∀ {l : List α}, x ∉ l → l.Nodup → (insertLe le x l).Nodup := by
  intro l
  induction l with
  | nil => intro _ _; simp [insertLe]
  | cons y ys ih =>
    intro hx hnd
    obtain ⟨hy, hys⟩ := List.nodup_cons.mp hnd
    by_cases h : le x y
    · rw [insertLe, if_pos h]
      exact List.nodup_cons.mpr ⟨hx, hnd⟩
    · rw [insertLe, if_neg h]
      refine List.nodup_cons.mpr ⟨?_, ih (fun hc => hx (List.mem_cons_of_mem y hc)) hys⟩
      intro hc
      rcases (mem_insertLe le x y ys).mp hc with rfl | hc2
      · exact hx (List.mem_cons_self y ys)
      · exact hy hc2

theorem nodup_isort {α : Type} (le : α → α → Bool) :
    ∀ {l : List α}, l.Nodup → (isort le l).Nodup := by
  intro l
  induction l with
  | nil => intro _; simp [isort]
  | cons x xs ih =>
    intro hnd
    obtain ⟨hx, hxs⟩ := List.nodup_cons.mp hnd
    rw [isort]
    exact nodup_insertLe le x (fun hc => hx ((mem_isort le x xs).mp hc)) (ih hxs)

theorem hasKey_append {β : Type} (l : List (String × β)) (k k' : String) (v : β) :
    hasKey (l ++ [(k, v)]) k' = (hasKey l k' || decide (k' = k)) := by
  rw [hasKey, lookup_append]
  rcases hl : assocLookup l k' with _ | b
  · rw [hasKey, hl]
    by_cases hk : k' = k
    · simp [assocLookup, hk]
    · simp [assocLookup, hk]
  · rw [hasKey, hl]
    rfl

theorem mem_keysOf {β : Type} {l : List (String × β)} {k : String} {b : β}
    (h : (k, b) ∈ l) : k ∈ keysOf l :=
  List.mem_map.mpr ⟨(k, b), h, rfl⟩

theorem mem_assoc_of_nodupKeys {β : Type} :
    ∀ {l : List (String × β)} {k : String} {b : β},
      (keysOf l).Nodup → (k, b) ∈ l → assocLookup l k = some b := by
  intro l
  induction l with
  | nil => intro k b _ h; simp at h
  | cons p rest ih =>
    intro k b hnd hmem
    obtain ⟨k0, v⟩ := p
    have hnd2 : (k0 :: keysOf rest).Nodup := hnd
    obtain ⟨hk0, hrest⟩ := List.nodup_cons.mp hnd2
    rcases List.mem_cons.mp hmem with heq | hmem2
    · injection heq with h1 h2
      subst h1
      subst h2
      simp [assocLookup]
    · by_cases hk : k = k0
      · subst hk
        exact absurd (mem_keysOf hmem2) hk0
      · rw [assocLookup, if_neg hk]
        exact ih hrest hmem2

/-- Every effective pair of the diagram emitter comes from a row with that
table name and (nonempty) domain. -/
theorem memP_row {rows : List Row} {p : String × String}
    (h : p ∈ (sortedPairs rows).filter (fun p => decide (p.2 ≠ ""))) :
    ∃ r ∈ rows, (r.tableS, r.domainS) = p ∧ p.2 ≠ "" := by
  obtain ⟨hmem, hq⟩ := List.mem_filter.mp h
  rw [sortedPairs] at hmem
  have h2 := (mem_isort pairLe p (d2Pairs rows)).mp hmem
  rw [d2Pairs] at h2
  obtain ⟨h3, -⟩ := dedupSeen_mem.mp h2
  obtain ⟨r, hr, hrp⟩ := List.mem_map.mp h3
  exact ⟨r, hr, hrp, by simpa using hq⟩

/-- On a run of pairs with nonempty domains and pairwise distinct table names
not yet present, the all_tables fold is a plain append of entries. -/
theorem foldAT_eq_map (rows : List Row) :
    ∀ (P : List (String × String)) (ats0 : List (String × D2Table)),
      (∀ p ∈ P, p.2 ≠ "") →
      (∀ p ∈ P, hasKey ats0 p.1 = false) →
      P.Pairwise (fun p q => p.1 ≠ q.1) →
      P.foldl (d2Step rows) ats0
        = ats0 ++ P.map (fun p => (p.1, ⟨p.2, columnsFor rows p.1⟩)) := by
  intro P
  induction P with
  | nil => intro ats0 _ _ _; simp
  | cons p P ih =>
    intro ats0 hne hkey hpw
    obtain ⟨hhd, htl⟩ := List.pairwise_cons.mp hpw
    rw [List.foldl_cons]
    have hstep : d2Step rows ats0 p
        = ats0 ++ [(p.1, ⟨p.2, columnsFor rows p.1⟩)] := by
      rw [d2Step, if_neg (hne p (List.mem_cons_self p P)), setAssoc,
        if_neg (by rw [hkey p (List.mem_cons_self p P)]; simp)]
    rw [hstep, ih _ (fun q hq => hne q (List.mem_cons_of_mem p hq))
      (fun q hq => by
        rw [hasKey_append, hkey q (List.mem_cons_of_mem p hq)]
        have hne2 : ¬(q.1 = p.1) := fun hc => hhd q hq hc.symm
        simp [hne2]) htl]
    simp [List.append_assoc]


/-! ### Sortedness of the grouped domains -/

theorem groupFold_invariant :
    ∀ (es : List (String × D2Table)) (acc : List (String × List String)),
      es.Pairwise (fun e1 e2 => pairLe (e1.1, e1.2.domain) (e2.1, e2.2.domain) = true) →
      es.Pairwise (fun e1 e2 => ¬(e1.1 = e2.1 ∧ e1.2.domain = e2.2.domain)) →
      (keysOf acc).Pairwise strLtP →
      (∀ k b, assocLookup acc k = some b → b.Pairwise strLtP) →
      (∀ e ∈ es, ∀ k ∈ keysOf acc, listLeB k.data e.2.domain.data = true) →
      (∀ e ∈ es, ∀ b, assocLookup acc e.2.domain = some b → ∀ t' ∈ b, strLtP t' e.1) →
      (keysOf (es.foldl groupStep acc)).Pairwise strLtP
      ∧ (∀ k b, assocLookup (es.foldl groupStep acc) k = some b → b.Pairwise strLtP) := by
  intro es
  induction es with
  | nil => intro acc _ _ hA hB _ _; exact ⟨hA, hB⟩
  | cons e es ih =>
    intro acc hsort hnd hA hB hC hD
    obtain ⟨hsort1, hsort2⟩ := List.pairwise_cons.mp hsort
    obtain ⟨hnd1, hnd2⟩ := List.pairwise_cons.mp hnd
    rw [List.foldl_cons]
    by_cases hk : hasKey acc e.2.domain
    · have hstep : groupStep acc e
          = updateAssoc acc e.2.domain (fun ts => ts ++ [e.1]) := by
        rw [groupStep, if_pos hk]
      rw [hstep]
      refine ih _ hsort2 hnd2 ?_ ?_ ?_ ?_
      · rw [keysOf_updateAssoc]
        exact hA
      · intro k b hkb
        rw [lookup_updateAssoc] at hkb
        by_cases hke : k = e.2.domain
        · rw [if_pos hke] at hkb
          rcases hl : assocLookup acc k with _ | b0
          · rw [hl] at hkb
            simp at hkb
          · rw [hl] at hkb
            have hkb2 : b0 ++ [e.1] = b := Option.some.inj hkb
            rw [← hkb2]
            rw [List.pairwise_append]
            refine ⟨hB k b0 hl, by simp, ?_⟩
            intro t1 ht1 t2 ht2
            rw [List.mem_singleton] at ht2
            subst ht2
            exact hD e (List.mem_cons_self e es) b0 (hke ▸ hl) t1 ht1
        · rw [if_neg hke] at hkb
          exact hB k b hkb
      · intro e2 he2 k hkmem
        rw [keysOf_updateAssoc] at hkmem
        exact hC e2 (List.mem_cons_of_mem e he2) k hkmem
      · intro e2 he2 b hb t' ht'
        rw [lookup_updateAssoc] at hb
        by_cases hke : e2.2.domain = e.2.domain
        · rw [if_pos hke] at hb
          rcases hl : assocLookup acc e2.2.domain with _ | b0
          · rw [hl] at hb
            simp at hb
          · rw [hl] at hb
            have hb2 : b0 ++ [e.1] = b := Option.some.inj hb
            rw [← hb2] at ht'
            rcases List.mem_append.mp ht' with ht1 | ht1
            · exact hD e2 (List.mem_cons_of_mem e he2) b0 hl t' ht1
            · rw [List.mem_singleton] at ht1
              subst ht1
              constructor
              · exact pairLe_table_le (hsort1 e2 he2) hke.symm
              · intro hc
                exact hnd1 e2 he2 ⟨hc, hke.symm⟩
        · rw [if_neg hke] at hb
          exact hD e2 (List.mem_cons_of_mem e he2) b hb t' ht'
    · have hstep : groupStep acc e = acc ++ [(e.2.domain, [e.1])] := by
        rw [groupStep, if_neg hk]
      rw [hstep]
      have hdmem : e.2.domain ∉ keysOf acc :=
        fun hc => hk ((hasKey_iff_mem acc e.2.domain).mpr hc)
      refine ih _ hsort2 hnd2 ?_ ?_ ?_ ?_
      · rw [keysOf_append]
        rw [List.pairwise_append]
        refine ⟨hA, by simp [keysOf], ?_⟩
        intro k hkm d hdm
        have hd2 : d = e.2.domain := by simpa [keysOf] using hdm
        subst hd2
        constructor
        · exact hC e (List.mem_cons_self e es) k hkm
        · intro hc
          exact hdmem (hc ▸ hkm)
      · intro k b hkb
        rw [lookup_append] at hkb
        rcases hl : assocLookup acc k with _ | b0
        · rw [hl] at hkb
          by_cases hke : k = e.2.domain
          · have : b = [e.1] := by
              rw [show assocLookup [(e.2.domain, [e.1])] k = some [e.1] from by
                simp [assocLookup, hke]] at hkb
              exact (Option.some.inj hkb).symm
            rw [this]
            simp
          · rw [show assocLookup [(e.2.domain, [e.1])] k = none from by
              simp [assocLookup, hke]] at hkb
            simp at hkb
        · rw [hl] at hkb
          have hbe : b0 = b := Option.some.inj hkb
          exact hbe ▸ hB k b0 hl
      · intro e2 he2 k hkmem
        rw [keysOf_append] at hkmem
        rcases List.mem_append.mp hkmem with hk1 | hk1
        · exact hC e2 (List.mem_cons_of_mem e he2) k hk1
        · have hke : k = e.2.domain := by simpa [keysOf] using hk1
          subst hke
          exact pairLe_domain_le (hsort1 e2 he2)
      · intro e2 he2 b hb t' ht'
        rw [lookup_append] at hb
        rcases hl : assocLookup acc e2.2.domain with _ | b0
        · rw [hl] at hb
          by_cases hke : e2.2.domain = e.2.domain
          · rw [show assocLookup [(e.2.domain, [e.1])] e2.2.domain = some [e.1] from by
              simp [assocLookup, hke]] at hb
            have hbe : b = [e.1] := (Option.some.inj hb).symm
            rw [hbe, List.mem_singleton] at ht'
            subst ht'
            constructor
            · exact pairLe_table_le (hsort1 e2 he2) hke.symm
            · intro hc
              exact hnd1 e2 he2 ⟨hc, hke.symm⟩
          · rw [show assocLookup [(e.2.domain, [e.1])] e2.2.domain = none from by
              simp [assocLookup, hke]] at hb
            simp at hb
        · rw [hl] at hb
          have hbe : b = b0 := (Option.some.inj hb).symm
          exact hD e2 (List.mem_cons_of_mem e he2) b0 hl t' (hbe ▸ ht')


/-! ### Claim C3: emission order of the diagram -/

/-- Under unique domains per table, `all_tables` is the sorted filtered pair
list mapped to entries. -/
theorem d2AllTables_eq_map (rows : List Row)
    (H : ∀ r1 r2, r1 ∈ rows → r2 ∈ rows → r1.tableS = r2.tableS →
      r1.domainS ≠ "" → r2.domainS ≠ "" → r1.domainS = r2.domainS) :
    d2AllTables rows
      = ((sortedPairs rows).filter (fun p => decide (p.2 ≠ ""))).map
          (fun p => (p.1, (⟨p.2, columnsFor rows p.1⟩ : D2Table)))
    ∧ ((sortedPairs rows).filter (fun p => decide (p.2 ≠ ""))).Pairwise
        (fun p q => p.1 ≠ q.1) := by
  have hPnd : ((sortedPairs rows).filter (fun p => decide (p.2 ≠ ""))).Nodup :=
    (List.filter_sublist _).nodup (nodup_isort pairLe (dedupSeen_nodup [] _))
  have hfst : ((sortedPairs rows).filter (fun p => decide (p.2 ≠ ""))).Pairwise
      (fun p q => p.1 ≠ q.1) := by
    refine List.Pairwise.imp_of_mem ?_ hPnd
    intro a b ha hb hab h1
    obtain ⟨r1, hr1, hp1, hne1⟩ := memP_row ha
    obtain ⟨r2, hr2, hp2, hne2⟩ := memP_row hb
    apply hab
    have ht1 : r1.tableS = a.1 := congrArg Prod.fst hp1
    have ht2 : r2.tableS = b.1 := congrArg Prod.fst hp2
    have hd1 : r1.domainS = a.2 := congrArg Prod.snd hp1
    have hd2 : r2.domainS = b.2 := congrArg Prod.snd hp2
    have hdeq : r1.domainS = r2.domainS :=
      H r1 r2 hr1 hr2 (by rw [ht1, ht2, h1]) (by rw [hd1]; exact hne1)
        (by rw [hd2]; exact hne2)
    have h2 : a.2 = b.2 := by rw [← hd1, ← hd2, hdeq]
    exact Prod.ext h1 h2
  refine ⟨?_, hfst⟩
  rw [d2AllTables, d2Fold_skip rows]
  rw [foldAT_eq_map rows _ []
    (fun p hp => by simpa using (List.mem_filter.mp hp).2)
    (fun p _ => rfl) hfst]
  rfl

/-- C3 amended: for input rows in which every table carries a single non-empty
domain value, the diagram's domain containers are emitted in ascending
code-point order of the domain string, and the tables inside each container in
ascending code-point order of the table name - the sorted order of line 381,
not the first-seen order of the input. -/
theorem C3_amended_sorted_order :
    ∀ rows : List Row,
      (∀ r1 r2, r1 ∈ rows → r2 ∈ rows → r1.tableS = r2.tableS →
        r1.domainS ≠ "" → r2.domainS ≠ "" → r1.domainS = r2.domainS) →
      (keysOf (d2Domains rows)).Pairwise strLtP
      ∧ ∀ p ∈ d2Domains rows, p.2.Pairwise strLtP := by
  intro rows H
  obtain ⟨hats, hfst⟩ := d2AllTables_eq_map rows H
  have hsortP : ((sortedPairs rows).filter (fun p => decide (p.2 ≠ ""))).Pairwise
      (fun p q => pairLe p q = true) :=
    List.Pairwise.sublist (List.filter_sublist _)
      (pairwise_isort pairLe_total pairLe_trans _)
  have hsortE : (((sortedPairs rows).filter (fun p => decide (p.2 ≠ ""))).map
        (fun p => (p.1, (⟨p.2, columnsFor rows p.1⟩ : D2Table)))).Pairwise
      (fun e1 e2 => pairLe (e1.1, e1.2.domain) (e2.1, e2.2.domain) = true) := by
    rw [List.pairwise_map]
    exact hsortP
  have hndE : (((sortedPairs rows).filter (fun p => decide (p.2 ≠ ""))).map
        (fun p => (p.1, (⟨p.2, columnsFor rows p.1⟩ : D2Table)))).Pairwise
      (fun e1 e2 => ¬(e1.1 = e2.1 ∧ e1.2.domain = e2.2.domain)) := by
    rw [List.pairwise_map]
    exact List.Pairwise.imp (fun h hc => h hc.1) hfst
  have hinv := groupFold_invariant _ [] hsortE hndE (by simp [keysOf])
    (by intro k b h; simp [assocLookup] at h)
    (by intro e _ k hk; simp [keysOf] at hk)
    (by intro e _ b h; simp [assocLookup] at h)
  constructor
  · rw [d2Domains, hats, groupFold]
    exact hinv.1
  · intro p hp
    rw [d2Domains, hats, groupFold] at hp
    have hkeysnd : (keysOf ((((sortedPairs rows).filter (fun p => decide (p.2 ≠ ""))).map
          (fun p => (p.1, (⟨p.2, columnsFor rows p.1⟩ : D2Table)))).foldl
            groupStep [])).Nodup :=
      List.Pairwise.imp (fun h => h.2) hinv.1
    obtain ⟨k, b⟩ := p
    exact hinv.2 k b (mem_assoc_of_nodupKeys hkeysnd hp)

/-- Rows whose first-seen domain order is B then A. -/
def c3RowB : Row :=
  { blankRow with
    DOMAIN := some "B"
    TABLE_NAME := some "X"
    COLUMN_NAME := some "c1" }

def c3RowA : Row :=
  { blankRow with
    DOMAIN := some "A"
    TABLE_NAME := some "Y"
    COLUMN_NAME := some "c2" }

/-- C3 counterexample: with input domain order B then A, the diagram emits
domain A first (sorted order), not the first-seen order B, A of the input. -/
theorem C3_counterexample_first_seen :
    keysOf (d2Domains [c3RowB, c3RowA]) = ["A", "B"]
    ∧ dedupSeen []
        (([c3RowB, c3RowA].filter (fun r => decide (r.domainS ≠ ""))).map Row.domainS)
      = ["B", "A"]
    ∧ (["A", "B"] : List String) ≠ ["B", "A"] := by
  refine ⟨by decide, by decide, by decide⟩

/-- C3 witness: the amended theorem applied to the two-row input above. -/
theorem C3_amended_sorted_order_witness :
    (keysOf (d2Domains [c3RowB, c3RowA])).Pairwise strLtP :=
  (C3_amended_sorted_order [c3RowB, c3RowA] (by
    intro r1 r2 h1 h2 ht _ _
    have h1x : r1 = c3RowB ∨ r1 = c3RowA := by simpa using h1
    have h2x : r2 = c3RowB ∨ r2 = c3RowA := by simpa using h2
    rcases h1x with rfl | rfl <;> rcases h2x with rfl | rfl
    · rfl
    · exact absurd ht (by decide)
    · exact absurd ht (by decide)
    · rfl)).1


/-! ### Claim C5: tables whose rows carry several domains -/

/-- The last pair of the list that assigns table `t` a nonempty domain -
the pair whose assignment survives the overwriting loop. -/
def lastQual (t : String) : List (String × String) → Option (String × String)
  | [] => none
  | p :: ps =>
    match lastQual t ps with
    | some q => some q
    | none => if p.1 = t ∧ p.2 ≠ "" then some p else none

theorem lookup_setAssoc {β : Type} (l : List (String × β)) (k k' : String) (v : β) :
    assocLookup (setAssoc l k v) k' = if k' = k then some v else assocLookup l k' := by
  rw [setAssoc]
  by_cases hk : hasKey l k
  · rw [if_pos hk, lookup_updateAssoc]
    by_cases hke : k' = k
    · rw [if_pos hke, if_pos hke, hke]
      rcases hl : assocLookup l k with _ | b
    -- none contradicts hasKey
      · exfalso
        rw [hasKey, hl] at hk
        simp at hk
      · rfl
    · rw [if_neg hke, if_neg hke]
  · rw [if_neg hk, lookup_append]
    by_cases hke : k' = k
    · subst hke
      have hnone : assocLookup l k' = none := by
        rcases hl : assocLookup l k' with _ | b
        · rfl
        · exfalso
          rw [hasKey, hl] at hk
          simp at hk
      rw [hnone, if_pos rfl]
      simp [assocLookup]
    · rw [if_neg hke]
      rcases hl : assocLookup l k' with _ | b
      · simp [assocLookup, hke]
      · rfl

theorem buildAT_lookup (rows : List Row) :
    ∀ (ps : List (String × String)) (ats0 : List (String × D2Table)) (t : String),
      assocLookup (ps.foldl (d2Step rows) ats0) t
        = match lastQual t ps with
          | some q => some ⟨q.2, columnsFor rows t⟩
          | none => assocLookup ats0 t := by
  intro ps
  induction ps with
  | nil => intro ats0 t; rfl
  | cons p ps ih =>
    intro ats0 t
    rw [List.foldl_cons, ih]
    rcases hq : lastQual t ps with _ | q
    · have hps : lastQual t (p :: ps)
          = if p.1 = t ∧ p.2 ≠ "" then some p else none := by
        rw [lastQual, hq]
      show assocLookup (d2Step rows ats0 p) t
          = match lastQual t (p :: ps) with
            | some q => some ⟨q.2, columnsFor rows t⟩
            | none => assocLookup ats0 t
      rw [hps]
      by_cases hd : p.2 = ""
      · rw [d2Step, if_pos hd, if_neg (by simp [hd])]
      · rw [d2Step, if_neg hd, lookup_setAssoc]
        by_cases ht : p.1 = t
        · subst ht
          rw [if_pos (show p.1 = p.1 ∧ p.2 ≠ "" from ⟨rfl, hd⟩),
            if_pos (rfl : p.1 = p.1)]
        · rw [if_neg (fun hc => ht hc.symm),
            if_neg (show ¬(p.1 = t ∧ p.2 ≠ "") from fun hc => ht hc.1)]
    · have hps : lastQual t (p :: ps) = some q := by rw [lastQual, hq]
      rw [hps]

theorem lastQual_mem {t : String} :
    ∀ {ps : List (String × String)} {q : String × String},
      lastQual t ps = some q → q ∈ ps ∧ q.1 = t ∧ q.2 ≠ "" := by
  intro ps
  induction ps with
  | nil => intro q h; simp [lastQual] at h
  | cons p ps ih =>
    intro q h
    rcases hq : lastQual t ps with _ | q0
    · rw [lastQual, hq] at h
      by_cases hc : p.1 = t ∧ p.2 ≠ ""
      · rw [if_pos hc] at h
        obtain rfl : p = q := Option.some.inj h
        exact ⟨List.mem_cons_self p ps, hc⟩
      · rw [if_neg hc] at h
        simp at h
    · rw [lastQual, hq] at h
      obtain rfl : q0 = q := Option.some.inj h
      obtain ⟨hm, hq1, hq2⟩ := ih hq
      exact ⟨List.mem_cons_of_mem p hm, hq1, hq2⟩

theorem lastQual_none {t : String} :
    ∀ {ps : List (String × String)}, lastQual t ps = none →
      ∀ p ∈ ps, ¬(p.1 = t ∧ p.2 ≠ "") := by
  intro ps
  induction ps with
  | nil => intro _ p hp; simp at hp
  | cons p0 ps ih =>
    intro h p hp
    rcases hq : lastQual t ps with _ | q0
    · rw [lastQual, hq] at h
      rcases List.mem_cons.mp hp with rfl | hp2
      · by_cases hc : p.1 = t ∧ p.2 ≠ ""
        · rw [if_pos hc] at h
          simp at h
        · exact hc
      · exact ih hq p hp2
    · rw [lastQual, hq] at h
      simp at h

theorem lastQual_max {t : String} :
    ∀ {ps : List (String × String)} {q : String × String},
      ps.Pairwise (fun a b => pairLe a b = true) →
      lastQual t ps = some q →
      ∀ p ∈ ps, p.1 = t → p.2 ≠ "" → pairLe p q = true := by
  intro ps
  induction ps with
  | nil => intro q _ h; simp [lastQual] at h
  | cons p0 ps ih =>
    intro q hpw h p hp h1 h2
    obtain ⟨hhd, htl⟩ := List.pairwise_cons.mp hpw
    rcases hq : lastQual t ps with _ | q0
    · rw [lastQual, hq] at h
      by_cases hc : p0.1 = t ∧ p0.2 ≠ ""
      · rw [if_pos hc] at h
        obtain rfl : p0 = q := Option.some.inj h
        rcases List.mem_cons.mp hp with rfl | hp2
        · exact pairLe_refl p
        · exact absurd ⟨h1, h2⟩ (lastQual_none hq p hp2)
      · rw [if_neg hc] at h
        simp at h
    · rw [lastQual, hq] at h
      obtain rfl : q0 = q := Option.some.inj h
      rcases List.mem_cons.mp hp with rfl | hp2
      · exact hhd q0 (lastQual_mem hq).1
      · exact ih htl hq p hp2 h1 h2


theorem lookup_ensure_ne {β : Type} (l : List (String × β)) (k d : String) (init : β)
    (h : ¬d = k) : assocLookup (ensureAssoc l k init) d = assocLookup l d := by
  rw [ensureAssoc]
  by_cases hk : hasKey l k
  · rw [if_pos hk]
  · rw [if_neg hk, lookup_append]
    rcases hl : assocLookup l d with _ | b
    · simp [assocLookup, h]
    · rfl

theorem lookup_ensure_self {β : Type} (l : List (String × β)) (k : String) (init : β) :
    assocLookup (ensureAssoc l k init) k = some ((assocLookup l k).getD init) := by
  rw [ensureAssoc]
  by_cases hk : hasKey l k
  · rw [if_pos hk]
    rcases hl : assocLookup l k with _ | b
    · exfalso
      rw [hasKey, hl] at hk
      simp at hk
    · rfl
  · rw [if_neg hk, lookup_append]
    rcases hl : assocLookup l k with _ | b
    · simp [assocLookup]
    · exfalso
      rw [hasKey, hl] at hk
      simp at hk

theorem hasKey_updateAssoc {β : Type} (l : List (String × β)) (k : String)
    (f : β → β) (k' : String) : hasKey (updateAssoc l k f) k' = hasKey l k' := by
  rw [hasKey, hasKey, lookup_updateAssoc]
  by_cases hk : k' = k
  · rw [if_pos hk]
    rcases hl : assocLookup l k' with _ | b <;> rfl
  · rw [if_neg hk]

theorem hasKey_ensure {β : Type} (l : List (String × β)) (k : String) (init : β)
    (k' : String) :
    hasKey (ensureAssoc l k init) k' = (hasKey l k' || decide (k' = k)) := by
  rw [ensureAssoc]
  by_cases hk : hasKey l k
  · rw [if_pos hk]
    by_cases hke : k' = k
    · subst hke
      simp [hk]
    · simp [hke]
  · rw [if_neg hk, hasKey_append]

/-- Whether the structured-JSON grouping lists table t under domain d. -/
def containsDT (g : List (String × List (String × STable))) (d t : String) : Bool :=
  hasKey ((assocLookup g d).getD []) t

theorem containsDT_step (g : List (String × List (String × STable))) (r : Row)
    (d t : String) :
    containsDT (sjsonStep g r) d t
      = (containsDT g d t
          || (decide (r.domainS = d) && !decide (r.domainS = "")
              && decide (t = r.tableS))) := by
  by_cases he : r.domainS = ""
  · rw [sjsonStep, if_pos he]
    simp [he]
  · rw [sjsonStep, if_neg he]
    by_cases hd : r.domainS = d
    · subst hd
      rw [containsDT, containsDT, lookup_updateAssoc, if_pos rfl,
        lookup_ensure_self, Option.map_some', Option.getD_some,
        hasKey_updateAssoc, hasKey_ensure]
      simp [he]
    · rw [containsDT, containsDT, lookup_updateAssoc,
        if_neg (fun hc => hd hc.symm), lookup_ensure_ne _ _ _ _ (fun hc => hd hc.symm)]
      simp [hd]

theorem containsDT_fold (d t : String) :
    ∀ (rows : List Row) (g : List (String × List (String × STable))),
      containsDT (rows.foldl sjsonStep g) d t = true
        ↔ containsDT g d t = true
          ∨ ∃ r ∈ rows, r.domainS = d ∧ r.domainS ≠ "" ∧ r.tableS = t := by
  intro rows
  induction rows with
  | nil =>
    intro g
    simp
  | cons r rows ih =>
    intro g
    rw [List.foldl_cons, ih, containsDT_step]
    constructor
    · rintro (h0 | ⟨r0, hr0, hp⟩)
      · simp only [Bool.or_eq_true, Bool.and_eq_true, decide_eq_true_eq,
          Bool.not_eq_true', decide_eq_false_iff_not] at h0
        rcases h0 with hg | ⟨⟨h1, h2⟩, h3⟩
        · exact Or.inl hg
        · exact Or.inr ⟨r, List.mem_cons_self r rows, h1, h2, h3.symm⟩
      · exact Or.inr ⟨r0, List.mem_cons_of_mem r hr0, hp⟩
    · rintro (hg | ⟨r0, hr0, h1, h2, h3⟩)
      · exact Or.inl (by simp [hg])
      · rcases List.mem_cons.mp hr0 with rfl | hmem
        · refine Or.inl ?_
          have h2x : ¬d = "" := by
            rw [← h1]
            exact h2
          simp [h1, h2x, h3]
        · exact Or.inr ⟨r0, hmem, h1, h2, h3⟩

/-- C5 (amended): a table reached by rows with several distinct non-empty
domains does NOT keep its first row's domain. In the diagram model the
surviving domain is the greatest (domain, table) assignment in the sorted
pair order - i.e. the code-point-maximal domain among the table's non-empty
domains (last write of the sorted loop wins), and it is some row's domain;
in the structured JSON the table is listed under EVERY distinct non-empty
domain of its rows, not under exactly one. -/
theorem C5_multi_domain_table (rows : List Row) (t : String) (info : D2Table)
    (h : assocLookup (d2AllTables rows) t = some info) :
    info.domain ≠ ""
    ∧ (∃ r ∈ rows, r.tableS = t ∧ r.domainS = info.domain)
    ∧ (∀ r ∈ rows, r.tableS = t → r.domainS ≠ "" →
        listLeB r.domainS.data info.domain.data = true)
    ∧ (∀ d : String, containsDT (sjsonBuild rows) d t = true
        ↔ ∃ r ∈ rows, r.domainS = d ∧ r.domainS ≠ "" ∧ r.tableS = t) := by
  have hb := buildAT_lookup rows (sortedPairs rows) [] t
  rw [d2AllTables] at h
  rw [h] at hb
  rcases hq : lastQual t (sortedPairs rows) with _ | q
  · rw [hq] at hb
    exfalso
    simp [assocLookup] at hb
  · rw [hq] at hb
    have hinfo : info = ⟨q.2, columnsFor rows t⟩ := Option.some.inj hb
    obtain ⟨hqmem, hq1, hq2⟩ := lastQual_mem hq
    have hdom : info.domain = q.2 := by rw [hinfo]
    refine ⟨?_, ?_, ?_, ?_⟩
    · rw [hdom]
      exact hq2
    · have hq3 : q ∈ d2Pairs rows := (mem_isort pairLe q (d2Pairs rows)).mp hqmem
      have hq4 : q ∈ rows.map (fun r => (r.tableS, r.domainS)) := (dedupSeen_mem.mp hq3).1
      obtain ⟨r, hr, hre⟩ := List.mem_map.mp hq4
      refine ⟨r, hr, ?_, ?_⟩
      · rw [← hq1, ← hre]
      · rw [hdom, ← hre]
    · intro r hr h1 h2
      have hm : (r.tableS, r.domainS) ∈ sortedPairs rows := by
        rw [sortedPairs, mem_isort]
        exact dedupSeen_mem.mpr ⟨List.mem_map.mpr ⟨r, hr, rfl⟩, List.not_mem_nil _⟩
      have hle := lastQual_max (pairwise_isort pairLe_total pairLe_trans (d2Pairs rows))
        hq (r.tableS, r.domainS) hm h1 h2
      rw [hdom]
      exact pairLe_domain_le hle
    · intro d
      have hcf := containsDT_fold d t rows []
      constructor
      · intro hc
        rw [sjsonBuild] at hc
        rcases hcf.mp hc with h0 | hr
        · exfalso
          simp [containsDT, assocLookup, hasKey] at h0
        · exact hr
      · intro hr
        rw [sjsonBuild]
        exact hcf.mpr (Or.inr hr)

/-- A table T whose two rows carry domains A and B. -/
def c5RowA : Row :=
  { blankRow with
    DOMAIN := some "A"
    TABLE_NAME := some "T"
    COLUMN_NAME := some "c1" }

def c5RowB : Row :=
  { blankRow with
    DOMAIN := some "B"
    TABLE_NAME := some "T"
    COLUMN_NAME := some "c2" }

/-- C5 counterexample: with rows (A,T,c1), (B,T,c2) the diagram model records
domain B for T - the first row carried A, so first-wins is false - and the
structured JSON lists T under both A and B, so the table does not belong to
exactly one domain. -/
theorem C5_counterexample_first_wins :
    (assocLookup (d2AllTables [c5RowA, c5RowB]) "T").map (fun i => i.domain) = some "B"
    ∧ c5RowA.domainS = "A"
    ∧ ("B" : String) ≠ "A"
    ∧ containsDT (sjsonBuild [c5RowA, c5RowB]) "A" "T" = true
    ∧ containsDT (sjsonBuild [c5RowA, c5RowB]) "B" "T" = true := by
  refine ⟨?_, ?_, ?_, ?_, ?_⟩ <;> decide

theorem C5_multi_domain_table_witness :
    ("B" : String) ≠ ""
    ∧ (∃ r ∈ [c5RowA, c5RowB], r.tableS = "T" ∧ r.domainS = "B")
    ∧ (∀ r ∈ [c5RowA, c5RowB], r.tableS = "T" → r.domainS ≠ "" →
        listLeB r.domainS.data ("B" : String).data = true)
    ∧ (∀ d : String, containsDT (sjsonBuild [c5RowA, c5RowB]) d "T" = true
        ↔ ∃ r ∈ [c5RowA, c5RowB], r.domainS = d ∧ r.domainS ≠ "" ∧ r.tableS = "T") :=
  C5_multi_domain_table [c5RowA, c5RowB] "T"
    ⟨"B", columnsFor [c5RowA, c5RowB] "T"⟩ rfl

end ModelGen
